import Mathlib

set_option maxRecDepth 100000

/-
Verification development for the in-memory virtual file system implemented in
`src/harness/vfs.ts` (namespace `vfs`).

Embedding notes.
* The path algebra (`vpath`) and the ordered name map (`core.SortedMap`) are
  not part of the given sources; they are modelled from the design document
  (sections 4.1 and 4.2).  Only the single POSIX root `"/"` is modelled.
* JavaScript heap objects are embedded as an inode store keyed by the inode
  number `ino` (inode numbers are unique per file system, so `ino` equality
  models object identity).  `Buffer` objects are embedded as indices into a
  per-file-system buffer arena so that buffer aliasing and defensive copying
  are observable.
* The source caches lazily materialized name maps and buffers in place.
  Materialization is deterministic, so read operations are modelled as pure
  recomputation; mutating operations store the maps they modify, exactly as
  the in-place mutation does.  The one-shot mount expansion mints inode
  numbers, so it is performed at `mountSync` time (one level deep) instead of
  on first access; no claim observes the expansion time.
* The global `devCount`/`inoCount` counters are modelled per file system;
  `shadow` seeds the child counters from the parent, which preserves the
  uniqueness the global counters provide.
* The clock (`time` option) is modelled as a fixed millisecond value; the
  `Date`/callable/`-1` clock forms are not needed by any claim.
-/

deriving instance DecidableEq for Except

namespace vfs

/-- POSIX-style error codes carried by `IOError` (the fixed set of the source). -/
inductive ErrorCode where
  | EACCES | EIO | ENOENT | EEXIST | ELOOP | ENOTDIR
  | EISDIR | EBADF | EINVAL | ENOTEMPTY | EPERM | EROFS
deriving DecidableEq, Repr

/-- Thrown errors: `IOError` with a code, or a plain `Error`/`TypeError` message. -/
inductive Err where
  | posix (code : ErrorCode)
  | generic (msg : String)
deriving DecidableEq, Repr

-- file type constants, as in the source
def S_IFMT : Nat := 0o170000
def S_IFSOCK : Nat := 0o140000
def S_IFLNK : Nat := 0o120000
def S_IFREG : Nat := 0o100000
def S_IFBLK : Nat := 0o060000
def S_IFDIR : Nat := 0o040000
def S_IFCHR : Nat := 0o020000
def S_IFIFO : Nat := 0o010000

namespace vpath

/-- Comparison of code-point sequences (lexicographic). -/
def cmpNats : List Nat → List Nat → Ordering
  | [], [] => .eq
  | [], _ :: _ => .lt
  | _ :: _, [] => .gt
  | a :: as, b :: bs =>
      if a < b then .lt
      else if b < a then .gt
      else cmpNats as bs

/-- Modelled from the spec: the locale-independent ASCII fold of one code
point, section 4.1. -/
def asciiLowerNat (n : Nat) : Nat :=
  if 65 ≤ n ∧ n ≤ 90 then n + 32 else n

/-- The sort key of a path under the chosen case sensitivity. -/
def keyOf (ignoreCase : Bool) (s : String) : List Nat :=
  if ignoreCase then s.data.map (fun c => asciiLowerNat c.toNat)
  else s.data.map Char.toNat

/-- Modelled from the spec: case-sensitive comparator (byte order), section 4.1. -/
def compareCaseSensitive (a b : String) : Ordering :=
  cmpNats (keyOf false a) (keyOf false b)

/-- Modelled from the spec: case-insensitive comparator (ASCII fold),
section 4.1. -/
def compareCaseInsensitive (a b : String) : Ordering :=
  cmpNats (keyOf true a) (keyOf true b)

def isAbsolute (p : String) : Bool :=
  match p.data with
  | c :: _ => c = '/'
  | [] => false

/-- Modelled from the spec: `isRoot`; only the POSIX root is modelled. -/
def isRoot (p : String) : Bool := p = "/"

/-- Split a character list on `/` separators (structural, so that concrete
paths evaluate inside the kernel). -/
def splitSep : List Char → List Char → List String
  | [], acc => [String.mk acc.reverse]
  | c :: cs, acc =>
      if c = '/' then String.mk acc.reverse :: splitSep cs []
      else splitSep cs (c :: acc)

/-- The non-empty name fragments of a path string. -/
def nameList (p : String) : List String :=
  (splitSep p.data []).filter (fun s => s ≠ "")

/-- Modelled from the spec: `parse(path) → components`, a root component plus
zero or more names, trailing separators normalized away (section 4.1). -/
def parse (p : String) : List String :=
  if isAbsolute p then "/" :: nameList p else nameList p

/-- Join name components with `/` separators (structural `intercalate`). -/
def joinNames : List String → String
  | [] => ""
  | [n] => n
  | n :: ns => n ++ "/" ++ joinNames ns

/-- Modelled from the spec: `format(components) → path` (section 4.1). -/
def format (cs : List String) : String :=
  match cs with
  | [] => ""
  | r :: names => r ++ joinNames names

/-- Collapse `.` and `..` name components, clamping `..` at the root
(the accumulator holds the names seen so far, in reverse). -/
def collapse (acc : List String) : List String → List String
  | [] => acc.reverse
  | n :: rest =>
      if n = "." then collapse acc rest
      else if n = ".." then collapse (acc.drop 1) rest
      else collapse (n :: acc) rest

/-- Normal form of an absolute path: collapsed names under the root. -/
def normalize (p : String) : String :=
  format ("/" :: collapse [] (nameList p))

/-- Modelled from the spec: `resolve(base, p)` joins `p` onto `base`,
collapsing `.` and `..`, clamping `..` at the root (section 4.1). -/
def resolve (base p : String) : String :=
  if isAbsolute p then normalize p else normalize (base ++ "/" ++ p)

/-- Modelled from the spec: `dirname` (section 4.1). -/
def dirname (p : String) : String :=
  match parse p with
  | [] => p
  | r :: names => if names = [] then r else format (r :: names.dropLast)

/-- Modelled from the spec: `combine(a, b)` (section 4.1). -/
def combine (a b : String) : String :=
  if isAbsolute b then b else a ++ "/" ++ b

inductive ValidationFlags where
  | Absolute
  | RelativeOrAbsolute
deriving DecidableEq, Repr

/-- Modelled from the spec: `validate(path, flags)`; validation does not
normalize (section 8, symlink idempotence).  Failures are plain errors, not
`IOError`s. -/
def validate (p : String) (f : ValidationFlags) : Except Err String :=
  match f with
  | .Absolute =>
      if isAbsolute p then .ok p else .error (.generic "path not absolute")
  | .RelativeOrAbsolute => .ok p

end vpath

/-- The comparator chosen by the `ignoreCase` flag. -/
def cmpOf (ignoreCase : Bool) : String → String → Ordering :=
  if ignoreCase then vpath.compareCaseInsensitive else vpath.compareCaseSensitive

-- Modelled from the spec: `core.SortedMap` (section 4.2), a key-ordered
-- name → inode mapping; values are inode numbers (object references).

def smapGet (cmp : String → String → Ordering) :
    List (String × Nat) → String → Option Nat
  | [], _ => none
  | (k, v) :: rest, key =>
      if cmp key k = .eq then some v else smapGet cmp rest key

def smapSet (cmp : String → String → Ordering) :
    List (String × Nat) → String → Nat → List (String × Nat)
  | [], key, v => [(key, v)]
  | (k, w) :: rest, key, v =>
      match cmp key k with
      | .lt => (key, v) :: (k, w) :: rest
      | .eq => (k, v) :: rest
      | .gt => (k, w) :: smapSet cmp rest key v

def smapDelete (cmp : String → String → Ordering) :
    List (String × Nat) → String → List (String × Nat)
  | [], _ => []
  | (k, w) :: rest, key =>
      if cmp key k = .eq then rest else (k, w) :: smapDelete cmp rest key

def smapFromList (cmp : String → String → Ordering)
    (entries : List (String × Nat)) : List (String × Nat) :=
  entries.foldl (fun m e => smapSet cmp m e.1 e.2) []

/-- `FileSystemResolver`: the external three-method interface, reified as
finite tables so the embedding stays executable.  A missing entry stands for
an external resolver answering with empty data. -/
structure FileSystemResolver where
  statEntries : List (String × Nat × Nat) := []
  readdirEntries : List (String × List String) := []
  readFileEntries : List (String × List Nat) := []
deriving DecidableEq, Repr

def resolverStat (r : FileSystemResolver) (p : String) : Nat × Nat :=
  ((r.statEntries.find? (fun e => e.1 = p)).map Prod.snd).getD (0, 0)

def resolverReaddir (r : FileSystemResolver) (p : String) : List String :=
  ((r.readdirEntries.find? (fun e => e.1 = p)).map Prod.snd).getD []

def resolverReadFile (r : FileSystemResolver) (p : String) : List Nat :=
  ((r.readFileEntries.find? (fun e => e.1 = p)).map Prod.snd).getD []

/-- A generic POSIX inode: the three variants of the source share this header
and diverge in the optional payload fields, exactly as the TypeScript
interfaces do.  `links` maps names to inode numbers; `bufId` indexes the
buffer arena; `shadowRoot` is the inode number of the shadowed inode in the
parent file system. -/
structure Inode where
  dev : Nat
  ino : Nat
  mode : Nat
  atimeMs : Int
  mtimeMs : Int
  ctimeMs : Int
  birthtimeMs : Int
  nlink : Int
  size : Option Nat := none
  bufId : Option Nat := none
  source : Option String := none
  resolver : Option FileSystemResolver := none
  links : Option (List (String × Nat)) := none
  symlink : Option String := none
  shadowRoot : Option Nat := none
deriving DecidableEq, Repr

def isFile (node : Option Inode) : Bool :=
  match node with
  | some n => n.mode &&& S_IFMT = S_IFREG
  | none => false

def isDirectory (node : Option Inode) : Bool :=
  match node with
  | some n => n.mode &&& S_IFMT = S_IFDIR
  | none => false

def isSymlink (node : Option Inode) : Bool :=
  match node with
  | some n => n.mode &&& S_IFMT = S_IFLNK
  | none => false

/-- The non-recursive state of a `FileSystem` (everything except the shadowed
parent file system). -/
structure FSCore where
  ignoreCase : Bool
  cwd : String
  timeSrc : Int
  readonly : Bool
  rootLinks : Option (List (String × Nat))
  store : List (Nat × Inode)
  bufs : List (List Nat)
  nextIno : Nat
  nextDev : Nat
  dirStack : List String
deriving DecidableEq, Repr

/-- A virtual POSIX-like file system; `shadow` layers one over a read-only
parent, hence the recursive structure (`base` has no `_shadowRoot`, `layer`
has one). -/
inductive FileSystem where
  | base (core : FSCore)
  | layer (core : FSCore) (parent : FileSystem)
deriving DecidableEq, Repr

def FileSystem.core : FileSystem → FSCore
  | .base c => c
  | .layer c _ => c

def FileSystem.shadowFS : FileSystem → Option FileSystem
  | .base _ => none
  | .layer _ p => some p

def FileSystem.withCore : FileSystem → FSCore → FileSystem
  | .base _, c => .base c
  | .layer _ p, c => .layer c p

def FileSystem.ignoreCase (fs : FileSystem) : Bool := fs.core.ignoreCase

def FileSystem.cwd (fs : FileSystem) : String := fs.core.cwd

def FileSystem.isReadonly (fs : FileSystem) : Bool := fs.core.readonly

def FileSystem.cmp (fs : FileSystem) : String → String → Ordering :=
  cmpOf fs.core.ignoreCase

def storeGet (s : List (Nat × Inode)) (i : Nat) : Option Inode :=
  (s.find? (fun e => e.1 = i)).map Prod.snd

def storeSet (s : List (Nat × Inode)) (i : Nat) (n : Inode) : List (Nat × Inode) :=
  match s with
  | [] => [(i, n)]
  | (j, m) :: rest => if j = i then (i, n) :: rest else (j, m) :: storeSet rest i n

def FileSystem.storeSetNode (fs : FileSystem) (n : Inode) : FileSystem :=
  fs.withCore { fs.core with store := storeSet fs.core.store n.ino n }

def bufsGet (fs : FileSystem) (i : Nat) : List Nat :=
  fs.core.bufs.getD i []

def FileSystem.pushBuf (fs : FileSystem) (data : List Nat) : FileSystem :=
  fs.withCore { fs.core with bufs := fs.core.bufs ++ [data] }

/-- A JavaScript `Buffer` reference: an index into the owning file system's
buffer arena. -/
structure Buffer where
  id : Nat
deriving DecidableEq, Repr

/-- Mutating a buffer in place: overwrite the arena slot it references. -/
def setBuf (fs : FileSystem) (b : Buffer) (data : List Nat) : FileSystem :=
  fs.withCore { fs.core with bufs := fs.core.bufs.set b.id data }

/-- Allocate a fresh buffer holding `data` (models `Buffer.from`). -/
def allocBuffer (fs : FileSystem) (data : List Nat) : Buffer × FileSystem :=
  ({ id := fs.core.bufs.length }, fs.pushBuf data)

/-- The shadow inode materialized from a shadowed inode (`_getShadow`): same
header, `symlink` copied for symlinks, `shadowRoot` pointing back. -/
def shadowOf (root : Inode) : Inode :=
  { dev := root.dev, ino := root.ino, mode := root.mode,
    atimeMs := root.atimeMs, mtimeMs := root.mtimeMs,
    ctimeMs := root.ctimeMs, birthtimeMs := root.birthtimeMs,
    nlink := root.nlink,
    symlink := if isSymlink (some root) then root.symlink else none,
    shadowRoot := some root.ino }

/-- Resolve an inode reference: the file system's own store first, then the
shadowed parent, materializing a shadow inode. -/
def FileSystem.lookupNode : FileSystem → Nat → Option Inode
  | .base core, i => storeGet core.store i
  | .layer core parent, i =>
      match storeGet core.store i with
      | some n => some n
      | none => (parent.lookupNode i).map shadowOf

/-- The root name map (`_getRootLinks`): the stored map if present, otherwise
the shadowed parent's root map mirrored under this file system's comparator
(`_copyShadowLinks`). -/
def FileSystem.rootLinksView : FileSystem → List (String × Nat)
  | .base core =>
      match core.rootLinks with
      | some m => m
      | none => []
  | .layer core parent =>
      match core.rootLinks with
      | some m => m
      | none => smapFromList (cmpOf core.ignoreCase) parent.rootLinksView

/-- A directory's name map (`_getLinks`): the stored map if present, otherwise
the shadowed directory's map mirrored from the parent file system.  Mount
expansion is performed at `mountSync` time (see the header comment), so the
`source`/`resolver` branch does not occur here. -/
def FileSystem.linksView : FileSystem → Inode → List (String × Nat)
  | .base _, node =>
      match node.links with
      | some m => m
      | none => []
  | .layer core parent, node =>
      match node.links with
      | some m => m
      | none =>
          match node.shadowRoot with
          | some r =>
              match parent.lookupNode r with
              | some pn => smapFromList (cmpOf core.ignoreCase) (parent.linksView pn)
              | none => []
          | none => []

/-- File size (`_getSize`): materialized buffer first, then the recorded lazy
size, then the resolver's stat, then the shadowed inode, else `0`. -/
def FileSystem._getSize : FileSystem → Inode → Nat
  | .base core, node =>
      match node.bufId with
      | some i => (core.bufs.getD i []).length
      | none =>
          match node.size with
          | some s => s
          | none =>
              match node.source, node.resolver with
              | some src, some r => (resolverStat r src).2
              | _, _ => 0
  | .layer core parent, node =>
      match node.bufId with
      | some i => (core.bufs.getD i []).length
      | none =>
          match node.size with
          | some s => s
          | none =>
              match node.source, node.resolver with
              | some src, some r => (resolverStat r src).2
              | _, _ =>
                  match node.shadowRoot with
                  | some sr =>
                      match parent.lookupNode sr with
                      | some pn => parent._getSize pn
                      | none => 0
                  | none => 0

/-- File bytes (`_getBuffer`): materialized buffer, else the resolver's
content, else fall through to the shadowed inode, else empty. -/
def FileSystem._getBuffer : FileSystem → Inode → List Nat
  | .base core, node =>
      match node.bufId with
      | some i => core.bufs.getD i []
      | none =>
          match node.source, node.resolver with
          | some src, some r => resolverReadFile r src
          | _, _ => []
  | .layer core parent, node =>
      match node.bufId with
      | some i => core.bufs.getD i []
      | none =>
          match node.source, node.resolver with
          | some src, some r => resolverReadFile r src
          | _, _ =>
              match node.shadowRoot with
              | some sr =>
                  match parent.lookupNode sr with
                  | some pn => parent._getBuffer pn
                  | none => []
              | none => []

/-- The result of `_walk`: `node` may be absent (partial result for creating
callers); `links` is the name map of `parent` (or the root map), and `parent`
is `none` exactly when the path names a root. -/
structure WalkResult where
  realpath : String
  basename : String
  parent : Option Inode
  links : List (String × Nat)
  node : Option Inode
deriving DecidableEq, Repr

/-- One phase of the walk loop of `_walk`: consume components through
directories until the loop returns, fails, or hits a symlink splice.
`consumed` holds the components already traversed in this phase (the source
keeps a `step` index into a single component array; `consumed ++ rest` is
that array and `step = consumed.length`).  A splice hands the respliced
component list to `splice`. -/
def walkInner (fs : FileSystem) (noFollow : Bool)
    (splice : List String → Except Err WalkResult) :
    List String → List String → List (String × Nat) → Option Inode →
    Except Err WalkResult
  | _, [], _, _ => .error (.posix .ENOENT)
  | consumed, basename :: rest', links, parent =>
      let node := (smapGet fs.cmp links basename).bind fs.lookupNode
      if rest' = [] ∧ (noFollow ∨ ¬ isSymlink node) then
        .ok { realpath := vpath.format (consumed ++ [basename]), basename,
              parent, links, node }
      else
        match node with
        | none => .error (.posix .ENOENT)
        | some n =>
            if isSymlink (some n) then
              let dirname := vpath.format consumed
              let target := vpath.resolve dirname (n.symlink.getD "")
              splice (vpath.parse target ++ rest')
            else if isDirectory (some n) then
              walkInner fs noFollow splice (consumed ++ [basename]) rest'
                (fs.linksView n) (some n)
            else .error (.posix .ENOTDIR)

/-- The outer walk loop: `fuel = 40 - depth` is the remaining symlink splice
budget; each splice restarts a phase from the root name map with one unit
less, and a phase entered with `depth ≥ 40` (no fuel) fails `ELOOP` — exactly
the source's `depth >= 40` check, which can only fire right after a splice
since `depth` is constant within a phase. -/
def walkFuel (fs : FileSystem) (noFollow : Bool) :
    Nat → List String → Except Err WalkResult
  | 0, _ => .error (.posix .ELOOP)
  | k + 1, comps =>
      walkInner fs noFollow (fun respliced => walkFuel fs noFollow k respliced)
        [] comps fs.rootLinksView none

/-- `_walk(path, noFollow)`: resolve an already-absolute path to its end. -/
def FileSystem._walk (fs : FileSystem) (path : String) (noFollow : Bool) :
    Except Err WalkResult :=
  walkFuel fs noFollow 40 (vpath.parse path)

/-- `_resolve`: resolve the input path against the current working directory. -/
def FileSystem._resolve (fs : FileSystem) (path : String) : Except Err String :=
  if fs.core.cwd ≠ "" then do
    let p ← vpath.validate path .RelativeOrAbsolute
    .ok (vpath.resolve fs.core.cwd p)
  else
    vpath.validate path .Absolute

/-- The current clock value (`this.time()` as a reader; see header notes). -/
def FileSystem.timeNow (fs : FileSystem) : Int := fs.core.timeSrc

/-- `_mknod`: a fresh inode with the next inode number, `nlink = 0`, and
`mode = (mode & 0o7777 & ~0o022) | (type & S_IFMT)`. -/
def FileSystem._mknod (fs : FileSystem) (dev tpe mode : Nat) (time : Int) :
    Inode × FileSystem :=
  let ino := fs.core.nextIno + 1
  ({ dev, ino, mode := ((mode &&& 0o7777) &&& 0o7755) ||| (tpe &&& S_IFMT),
     atimeMs := time, mtimeMs := time, ctimeMs := time, birthtimeMs := time,
     nlink := 0 },
   fs.withCore { fs.core with nextIno := ino })

def FileSystem.withRootLinks (fs : FileSystem) (m : Option (List (String × Nat))) :
    FileSystem :=
  fs.withCore { fs.core with rootLinks := m }

/-- `_addLink`: insert `name ↦ node` into `links` (the map of `parent`, or the
root map), increment `nlink`, update `ctime` and the parent's `mtime`.  The
source mutates the map and the inode objects in place; here the modified map
and inodes are stored back (merged into one store write when `parent` is the
node itself, mirroring mutation of a single object). -/
def FileSystem._addLink (fs : FileSystem) (parent : Option Inode)
    (links : List (String × Nat)) (name : String) (node : Inode) (time : Int) :
    FileSystem :=
  let m := smapSet fs.cmp links name node.ino
  match parent with
  | some p =>
      if p.ino = node.ino then
        fs.storeSetNode
          { node with
              links := some m, nlink := node.nlink + 1,
              ctimeMs := time, mtimeMs := time }
      else
        (fs.storeSetNode { p with links := some m, mtimeMs := time }).storeSetNode
          { node with nlink := node.nlink + 1, ctimeMs := time }
  | none =>
      let fs1 := (fs.withRootLinks (some m)).storeSetNode
        { node with nlink := node.nlink + 1, ctimeMs := time }
      if fs1.core.cwd = "" then fs1.withCore { fs1.core with cwd := name } else fs1

/-- `_removeLink`: delete `name` from `links`, decrement `nlink`, update
`ctime` and the parent's `mtime`. -/
def FileSystem._removeLink (fs : FileSystem) (parent : Option Inode)
    (links : List (String × Nat)) (name : String) (node : Inode) (time : Int) :
    FileSystem :=
  let m := smapDelete fs.cmp links name
  match parent with
  | some p =>
      if p.ino = node.ino then
        fs.storeSetNode
          { node with
              links := some m, nlink := node.nlink - 1,
              ctimeMs := time, mtimeMs := time }
      else
        (fs.storeSetNode { p with links := some m, mtimeMs := time }).storeSetNode
          { node with nlink := node.nlink - 1, ctimeMs := time }
  | none =>
      (fs.withRootLinks (some m)).storeSetNode
        { node with nlink := node.nlink - 1, ctimeMs := time }

/-- `_replaceLink`: same-parent rename is an in-place key change (no `nlink`
update); cross-parent is detach + attach.  The source works on shared mutable
objects, so after the detach the current inode values are re-fetched here. -/
def FileSystem._replaceLink (fs : FileSystem) (oldParent : Inode)
    (oldLinks : List (String × Nat)) (oldName : String) (newParent : Inode)
    (newLinks : List (String × Nat)) (newName : String) (node : Inode)
    (time : Int) : FileSystem :=
  if oldParent.ino ≠ newParent.ino then
    let fs1 := fs._removeLink (some oldParent) oldLinks oldName node time
    let node1 := (fs1.lookupNode node.ino).getD node
    let newParent1 := (fs1.lookupNode newParent.ino).getD newParent
    fs1._addLink (some newParent1) newLinks newName node1 time
  else
    let m := smapSet fs.cmp (smapDelete fs.cmp oldLinks oldName) newName node.ino
    fs.storeSetNode { oldParent with links := some m, mtimeMs := time }

/-- `Stats`: a read-only snapshot of an inode's status. -/
structure Stats where
  dev : Nat
  ino : Nat
  mode : Nat
  nlink : Int
  uid : Nat
  gid : Nat
  rdev : Nat
  size : Nat
  blksize : Nat
  blocks : Nat
  atimeMs : Int
  mtimeMs : Int
  ctimeMs : Int
  birthtimeMs : Int
deriving DecidableEq, Repr

def Stats.isFile (s : Stats) : Bool := s.mode &&& S_IFMT = S_IFREG

def Stats.isDirectory (s : Stats) : Bool := s.mode &&& S_IFMT = S_IFDIR

def Stats.isSymbolicLink (s : Stats) : Bool := s.mode &&& S_IFMT = S_IFLNK

def Stats.isBlockDevice (s : Stats) : Bool := s.mode &&& S_IFMT = S_IFBLK

def Stats.isCharacterDevice (s : Stats) : Bool := s.mode &&& S_IFMT = S_IFCHR

def Stats.isFIFO (s : Stats) : Bool := s.mode &&& S_IFMT = S_IFIFO

def Stats.isSocket (s : Stats) : Bool := s.mode &&& S_IFMT = S_IFSOCK

/-- `_stat`: build a `Stats` snapshot from a walk result; `ENOENT` if the walk
found no node. -/
def FileSystem._stat (fs : FileSystem) (entry : WalkResult) : Except Err Stats :=
  match entry.node with
  | none => .error (.posix .ENOENT)
  | some node =>
      .ok { dev := node.dev, ino := node.ino, mode := node.mode,
            nlink := node.nlink, uid := 0, gid := 0, rdev := 0,
            size :=
              if isFile (some node) then fs._getSize node
              else if isSymlink (some node) then (node.symlink.getD "").length
              else 0,
            blksize := 4096, blocks := 0,
            atimeMs := node.atimeMs, mtimeMs := node.mtimeMs,
            ctimeMs := node.ctimeMs, birthtimeMs := node.birthtimeMs }

/-- `statSync`: status, dereferencing a final symlink. -/
def FileSystem.statSync (fs : FileSystem) (path : String) : Except Err Stats := do
  let p ← fs._resolve path
  let w ← fs._walk p false
  fs._stat w

/-- `lstatSync`: status without dereferencing a final symlink. -/
def FileSystem.lstatSync (fs : FileSystem) (path : String) : Except Err Stats := do
  let p ← fs._resolve path
  let w ← fs._walk p true
  fs._stat w

/-- `readdirSync`: names of a directory in comparator order. -/
def FileSystem.readdirSync (fs : FileSystem) (path : String) :
    Except Err (List String) := do
  let p ← fs._resolve path
  let w ← fs._walk p false
  match w.node with
  | none => .error (.posix .ENOENT)
  | some node =>
      if ¬ isDirectory (some node) then .error (.posix .ENOTDIR)
      else .ok ((fs.linksView node).map Prod.fst)

/-- `mkdirSync`: create a directory; `EEXIST` if any entry is at the path. -/
def FileSystem.mkdirSync (fs : FileSystem) (path : String) :
    Except Err FileSystem := do
  if fs.isReadonly then .error (.posix .EROFS) else do
  let p ← fs._resolve path
  let w ← fs._walk p true
  match w.node with
  | some _ => .error (.posix .EEXIST)
  | none =>
      let time := fs.timeNow
      match w.parent with
      | some parent =>
          let (node, fs1) := fs._mknod parent.dev S_IFDIR 0o777 time
          .ok (fs1._addLink (some parent) w.links w.basename node time)
      | none =>
          let dev := fs.core.nextDev + 1
          let fs0 := fs.withCore { fs.core with nextDev := dev }
          let (node, fs1) := fs0._mknod dev S_IFDIR 0o777 time
          .ok (fs1._addLink none w.links w.basename node time)

/-- `rmdirSync`: remove a directory. -/
def FileSystem.rmdirSync (fs : FileSystem) (path : String) :
    Except Err FileSystem := do
  if fs.isReadonly then .error (.posix .EROFS) else do
  let p ← fs._resolve path
  let w ← fs._walk p true
  match w.parent with
  | none => .error (.posix .EPERM)
  | some parent =>
      if ¬ isDirectory w.node then .error (.posix .ENOTDIR)
      else
        match w.node with
        | some node =>
            if (fs.linksView node).length ≠ 0 then .error (.posix .ENOTEMPTY)
            else .ok (fs._removeLink (some parent) w.links w.basename node fs.timeNow)
        | none => .error (.posix .ENOTDIR)

/-- `linkSync`: hard link `oldpath` (dereferenced) at `newpath`. -/
def FileSystem.linkSync (fs : FileSystem) (oldpath newpath : String) :
    Except Err FileSystem := do
  if fs.isReadonly then .error (.posix .EROFS) else do
  let pOld ← fs._resolve oldpath
  let wOld ← fs._walk pOld false
  match wOld.node with
  | none => .error (.posix .ENOENT)
  | some node =>
      if isDirectory (some node) then .error (.posix .EPERM) else do
      let pNew ← fs._resolve newpath
      let wNew ← fs._walk pNew true
      match wNew.parent with
      | none => .error (.posix .EPERM)
      | some parent =>
          match wNew.node with
          | some _ => .error (.posix .EEXIST)
          | none =>
              .ok (fs._addLink (some parent) wNew.links wNew.basename node fs.timeNow)

/-- `unlinkSync`: remove a directory entry (not following a final symlink). -/
def FileSystem.unlinkSync (fs : FileSystem) (path : String) :
    Except Err FileSystem := do
  if fs.isReadonly then .error (.posix .EROFS) else do
  let p ← fs._resolve path
  let w ← fs._walk p true
  match w.parent with
  | none => .error (.posix .EPERM)
  | some parent =>
      match w.node with
      | none => .error (.posix .ENOENT)
      | some node =>
          if isDirectory (some node) then .error (.posix .EISDIR)
          else .ok (fs._removeLink (some parent) w.links w.basename node fs.timeNow)

/-- `renameSync`: rename a file or directory, replacing a compatible existing
target after detaching it. -/
def FileSystem.renameSync (fs : FileSystem) (oldpath newpath : String) :
    Except Err FileSystem := do
  if fs.isReadonly then .error (.posix .EROFS) else do
  let pOld ← fs._resolve oldpath
  let wOld ← fs._walk pOld true
  match wOld.parent with
  | none => .error (.posix .EPERM)
  | some oldParent =>
      match wOld.node with
      | none => .error (.posix .ENOENT)
      | some node => do
          let pNew ← fs._resolve newpath
          let wNew ← fs._walk pNew true
          match wNew.parent with
          | none => .error (.posix .EPERM)
          | some newParent =>
              let time := fs.timeNow
              let detach : Except Err FileSystem :=
                match wNew.node with
                | some existing =>
                    if isDirectory (some node) then
                      if ¬ isDirectory (some existing) then .error (.posix .ENOTDIR)
                      else if (fs.linksView existing).length > 0 then
                        .error (.posix .ENOTEMPTY)
                      else
                        .ok (fs._removeLink (some newParent) wNew.links
                          wNew.basename existing time)
                    else
                      if isDirectory (some existing) then .error (.posix .EISDIR)
                      else
                        .ok (fs._removeLink (some newParent) wNew.links
                          wNew.basename existing time)
                | none => .ok fs
              match detach with
              | .error e => .error e
              | .ok fs1 =>
                  let node1 := (fs1.lookupNode node.ino).getD node
                  let oldParent1 := (fs1.lookupNode oldParent.ino).getD oldParent
                  let newParent1 := (fs1.lookupNode newParent.ino).getD newParent
                  let oldLinks1 := fs1.linksView oldParent1
                  let newLinks1 := fs1.linksView newParent1
                  .ok (fs1._replaceLink oldParent1 oldLinks1 wOld.basename
                    newParent1 newLinks1 wNew.basename node1 time)

/-- `symlinkSync`: create a symbolic link whose stored text is `target`
validated as relative-or-absolute (and not otherwise normalized). -/
def FileSystem.symlinkSync (fs : FileSystem) (target linkpath : String) :
    Except Err FileSystem := do
  if fs.isReadonly then .error (.posix .EROFS) else do
  let p ← fs._resolve linkpath
  let w ← fs._walk p true
  match w.parent with
  | none => .error (.posix .EPERM)
  | some parent =>
      match w.node with
      | some _ => .error (.posix .EEXIST)
      | none => do
          let time := fs.timeNow
          let (node, fs1) := fs._mknod parent.dev S_IFLNK 0o666 time
          let tgt ← vpath.validate target .RelativeOrAbsolute
          .ok (fs1._addLink (some parent) w.links w.basename
            { node with symlink := some tgt } time)

/-- `realpathSync`: the walk's textually normalized resolved path. -/
def FileSystem.realpathSync (fs : FileSystem) (path : String) :
    Except Err String := do
  let p ← fs._resolve path
  let w ← fs._walk p false
  .ok w.realpath

/-- `readFileSync`: returns `this._getBuffer(node).slice()`.  Node's
`Buffer.prototype.slice` is a memory-sharing view, not a copy, so for a
materialized file the caller receives the stored buffer's own arena slot;
mutating it in place mutates the file (see claim C2).  An unmaterialized
file is materialized first (`_getBuffer` creates the buffer the view then
shares; the write-back of `node.buffer` is not tracked — scripted files
always carry a materialized buffer, so this does not change any observable
below). -/
def FileSystem.readFileSync (fs : FileSystem) (path : String) :
    Except Err (Buffer × FileSystem) := do
  let p ← fs._resolve path
  let w ← fs._walk p false
  match w.node with
  | none => .error (.posix .ENOENT)
  | some node =>
      if isDirectory (some node) then .error (.posix .EISDIR)
      else if ¬ isFile (some node) then .error (.posix .EBADF)
      else
        match node.bufId with
        | some i => .ok ({ id := i }, fs)
        | none => .ok (allocBuffer fs (fs._getBuffer node))

/-- The byte contents a `readFileSync` call delivers (the contents of the
returned buffer). -/
def FileSystem.readContents (fs : FileSystem) (path : String) :
    Except Err (List Nat) :=
  (fs.readFileSync path).map (fun r => bufsGet r.2 r.1.id)

/-- `writeFileSync`: stores `node.buffer = data.slice()` — a memory-sharing
view of the caller's buffer, so the file's `bufId` is the caller's own arena
slot and mutating the caller's buffer in place afterwards changes the file's
contents (see claim C2).  `node.size` records the byte length at call
time. -/
def FileSystem.writeFileSync (fs : FileSystem) (path : String) (data : Buffer) :
    Except Err FileSystem := do
  if fs.isReadonly then .error (.posix .EROFS) else do
  let p ← fs._resolve path
  let w ← fs._walk p false
  match w.parent with
  | none => .error (.posix .EPERM)
  | some parent =>
      let time := fs.timeNow
      let made :=
        match w.node with
        | some n => (n, fs)
        | none =>
            let (n, fsA) := fs._mknod parent.dev S_IFREG 0o666 time
            (n, fsA._addLink (some parent) w.links w.basename n time)
      let fs1 := made.2
      -- the source keeps mutating the same inode object; re-fetch its
      -- current state after the attach
      let node := (fs1.lookupNode made.1.ino).getD made.1
      if isDirectory (some node) then .error (.posix .EISDIR)
      else if ¬ isFile (some node) then .error (.posix .EBADF)
      else
        .ok (fs1.storeSetNode
          { node with bufId := some data.id,
                      size := some (bufsGet fs1 data.id).length,
                      mtimeMs := time, ctimeMs := time })

/-- `mountSync`: mount an external source as a directory; the directory's
children are produced from the resolver (see the header notes on expansion
time). -/
def FileSystem.mountSync (fs : FileSystem) (source target : String)
    (resolver : FileSystemResolver) : Except Err FileSystem := do
  if fs.isReadonly then .error (.posix .EROFS) else do
  let src ← vpath.validate source .Absolute
  let p ← fs._resolve target
  let w ← fs._walk p true
  match w.node with
  | some _ => .error (.posix .EEXIST)
  | none =>
      let time := fs.timeNow
      let devAndFs :=
        match w.parent with
        | some parent => (parent.dev, fs)
        | none =>
            (fs.core.nextDev + 1,
             fs.withCore { fs.core with nextDev := fs.core.nextDev + 1 })
      let (node, fs1) := devAndFs.2._mknod devAndFs.1 S_IFDIR 0o777 time
      let expanded := (resolverReaddir resolver src).foldl
        (fun acc name =>
          let fsa := acc.1
          let entries := acc.2
          let childPath := vpath.combine src name
          let st := resolverStat resolver childPath
          if st.1 &&& S_IFMT = S_IFDIR then
            let (child, fsn) := fsa._mknod node.dev S_IFDIR 0o777 time
            let child1 : Inode :=
              { child with source := some childPath, resolver := some resolver,
                           nlink := 1, ctimeMs := time }
            (fsn.storeSetNode child1, smapSet fs.cmp entries name child1.ino)
          else if st.1 &&& S_IFMT = S_IFREG then
            let (child, fsn) := fsa._mknod node.dev S_IFREG 0o666 time
            let child1 : Inode :=
              { child with source := some childPath, resolver := some resolver,
                           size := some st.2, nlink := 1, ctimeMs := time }
            (fsn.storeSetNode child1, smapSet fs.cmp entries name child1.ino)
          else acc)
        (fs1, ([] : List (String × Nat)))
      let node1 : Inode :=
        { node with source := some src, resolver := some resolver,
                    links := some expanded.2, mtimeMs := time }
      .ok (expanded.1._addLink w.parent w.links w.basename node1 time)

/-- `chdir`: change the current working directory (`EPERM` when frozen). -/
def FileSystem.chdir (fs : FileSystem) (path : String) : Except Err FileSystem := do
  if fs.isReadonly then .error (.posix .EPERM) else do
  let p ← fs._resolve path
  let w ← fs._walk p false
  match w.node with
  | none => .error (.posix .ENOENT)
  | some node =>
      if ¬ isDirectory (some node) then .error (.posix .ENOTDIR)
      else .ok (fs.withCore { fs.core with cwd := p })

/-- `pushd`: push the current directory and optionally change to `path`. -/
def FileSystem.pushd (fs : FileSystem) (path : Option String) :
    Except Err FileSystem := do
  if fs.isReadonly then .error (.posix .EPERM) else do
  let pOpt ← match path with
    | some q => do
        let p ← fs._resolve q
        pure (some p)
    | none => pure (none : Option String)
  let fs1 :=
    if fs.core.cwd ≠ "" then
      fs.withCore { fs.core with dirStack := fs.core.cwd :: fs.core.dirStack }
    else fs
  match pOpt with
  | some p => if p ≠ fs1.core.cwd then fs1.chdir p else .ok fs1
  | none => .ok fs1

/-- `popd`: pop the directory stack and change to the popped directory. -/
def FileSystem.popd (fs : FileSystem) : Except Err FileSystem := do
  if fs.isReadonly then .error (.posix .EPERM) else
  match fs.core.dirStack with
  | [] => .ok fs
  | p :: rest =>
      let fs1 := fs.withCore { fs.core with dirStack := rest }
      if p ≠ "" then fs1.chdir p else .ok fs1

/-- `time(value?)`: read the clock, optionally installing a new clock source;
setting the clock on a frozen file system fails `EPERM`. -/
def FileSystem.time (fs : FileSystem) (value : Option Int) :
    Except Err (Int × FileSystem) :=
  if value.isSome && fs.isReadonly then .error (.posix .EPERM)
  else
    let result := fs.core.timeSrc
    match value with
    | some v => .ok (result, fs.withCore { fs.core with timeSrc := v })
    | none => .ok (result, fs)

/-- `makeReadonly`: freeze the file system. -/
def FileSystem.makeReadonly (fs : FileSystem) : FileSystem :=
  fs.withCore { fs.core with readonly := true }

/-- `mkdirpSync` recursion with explicit fuel (the source recurses on
`dirname`, which sheds one component per step, so `(parse p).length` fuel is
enough). -/
def FileSystem.mkdirpAux (fs : FileSystem) : Nat → String → Except Err FileSystem
  | 0, p => fs.mkdirSync p
  | fuel + 1, p =>
      match fs.mkdirSync p with
      | .ok fs1 => .ok fs1
      | .error e =>
          if e = .posix .ENOENT then do
            let fs1 ← fs.mkdirpAux fuel (vpath.dirname p)
            fs1.mkdirSync p
          else if e = .posix .EEXIST then .ok fs
          else .error e

/-- `mkdirpSync`: make a directory and all missing parents. -/
def FileSystem.mkdirpSync (fs : FileSystem) (path : String) :
    Except Err FileSystem := do
  let p ← fs._resolve path
  fs.mkdirpAux (vpath.parse p).length p

/-- The `FileSystem` constructor for the forms the claims use: a fresh file
system with the given case sensitivity, clock value and absolute working
directory (which the constructor creates via `mkdirpSync`). -/
def FileSystem.create (ignoreCase : Bool) (cwd : String) (time : Int) :
    FileSystem :=
  let fs0 : FileSystem :=
    .base { ignoreCase, cwd := "", timeSrc := time, readonly := false,
            rootLinks := none, store := [], bufs := [], nextIno := 0,
            nextDev := 0, dirStack := [] }
  match fs0.mkdirpSync cwd with
  | .ok fs1 => fs1.withCore { fs1.core with cwd := cwd }
  | .error _ => fs0.withCore { fs0.core with cwd := cwd }

/-- The laws of a path comparator (a total preorder induced by a sort key)
that the sorted-map lemmas rely on. -/
structure CmpLaws (cmp : String → String → Ordering) : Prop where
  refl : ∀ a, cmp a a = Ordering.eq
  swap : ∀ a b, cmp a b = (cmp b a).swap
  lt_trans : ∀ a b c,
    cmp a b = Ordering.lt → cmp b c = Ordering.lt → cmp a c = Ordering.lt
  congr_left : ∀ a b c, cmp a b = Ordering.eq → cmp a c = cmp b c

/-- Strict pairwise sortedness of a name map under a comparator. -/
def SMapWf (cmp : String → String → Ordering) (m : List (String × Nat)) : Prop :=
  m.Pairwise (fun a b => cmp a.1 b.1 = Ordering.lt)

/-- Strict sortedness of a name map under a comparator (adjacent chain; with a
transitive comparator this is full pairwise sortedness). -/
def smapWfB (cmp : String → String → Ordering) : List (String × Nat) → Bool
  | [] => true
  | [_] => true
  | x :: y :: t => decide (cmp x.1 y.1 = Ordering.lt) && smapWfB cmp (y :: t)

/-- Well-formedness of one layer's core: store entries keyed by their own
`ino`, inode numbers bounded by `nextIno`, name maps sorted with entries
bounded by `nextIno`, buffer ids inside the arena. -/
def coreWf (core : FSCore) : Bool :=
  core.store.all (fun e =>
    e.2.ino = e.1 && e.1 ≤ core.nextIno &&
    (match e.2.links with
     | some m =>
         smapWfB (cmpOf core.ignoreCase) m &&
         m.all (fun q => q.2 ≤ core.nextIno)
     | none => true) &&
    (match e.2.bufId with
     | some b => b < core.bufs.length
     | none => true)) &&
  (match core.rootLinks with
   | some m =>
       smapWfB (cmpOf core.ignoreCase) m &&
       m.all (fun q => q.2 ≤ core.nextIno)
   | none => true)

def FileSystem.Wf : FileSystem → Bool
  | .base core => coreWf core
  | .layer core parent =>
      coreWf core && parent.Wf && decide (parent.core.nextIno ≤ core.nextIno)

/-- A fresh case-sensitive file system with cwd `/`. -/
def freshFS : FileSystem := FileSystem.create false "/" 0

/-- `freshFS` frozen via `makeReadonly`. -/
def roFS : FileSystem := freshFS.makeReadonly

/-- `freshFS` populated with `/a` and `/a/b.txt` containing the bytes of
`"hi"`; the caller's buffer is arena slot `0`. -/
def hiFS : FileSystem :=
  (freshFS.mkdirSync "/a").toOption.map (fun f1 =>
    let alloc := allocBuffer f1 [104, 105]
    ((alloc.2.writeFileSync "/a/b.txt" alloc.1).toOption).getD alloc.2)
  |>.getD freshFS

/-- The two-symlink cycle of scenario S4: `/y -> /x` then `/x -> /y`. -/
def cycleFS : FileSystem :=
  (freshFS.symlinkSync "/x" "/y").bind (fun f1 => f1.symlinkSync "/y" "/x")
  |>.toOption.getD freshFS

/-- A regular file `/f` plus a linear chain `/c1 -> /f`, `/c2 -> /c1`, …,
`/cn -> /c(n-1)`: resolving `/cn` needs exactly `n` symlink splices. -/
def chainFS (n : Nat) : FileSystem :=
  let withFile :=
    let alloc := allocBuffer freshFS [104]
    ((alloc.2.writeFileSync "/f" alloc.1).toOption).getD alloc.2
  (List.range n).foldl (fun acc i =>
    let target := if i = 0 then "/f" else "/c" ++ toString i
    let link := "/c" ++ toString (i + 1)
    ((acc.symlinkSync target link).toOption).getD acc) withFile

/-- `hiFS` after `renameSync("/a/b.txt", "/a/b.txt")` — the rename-to-self
state. -/
def renameSelfFS : FileSystem :=
  ((hiFS.renameSync "/a/b.txt" "/a/b.txt").toOption).getD hiFS

/-- A default walk result, for extracting concrete walks. -/
def emptyWalk : WalkResult :=
  { realpath := "", basename := "", parent := none, links := [], node := none }

/-- A default inode, for extracting concrete walk components. -/
def defaultInode : Inode :=
  { dev := 0, ino := 0, mode := 0, atimeMs := 0, mtimeMs := 0, ctimeMs := 0,
    birthtimeMs := 0, nlink := 0 }

/-- The concrete walk of `/missing` (no final entry) on `freshFS`. -/
def missWalk : WalkResult :=
  ((freshFS._walk "/missing" true).toOption).getD emptyWalk

/-- The concrete follow-walk of `/missing` on `freshFS`. -/
def missWalkF : WalkResult :=
  ((freshFS._walk "/missing" false).toOption).getD emptyWalk

/-- A caller buffer holding three bytes, allocated against `hiFS`, together
with the owning file system (the write/read round-trip scenario). -/
def c7Buf : Buffer × FileSystem := allocBuffer hiFS [104, 105, 33]

/-- `c7Buf`'s file system after writing the caller's buffer at `/a/c.txt`. -/
def c7FS : FileSystem :=
  ((c7Buf.2.writeFileSync "/a/c.txt" c7Buf.1).toOption).getD c7Buf.2

/-- The buffer and file system returned by reading `/a/b.txt` on `hiFS`. -/
def c2Read : Buffer × FileSystem :=
  ((hiFS.readFileSync "/a/b.txt").toOption).getD ({ id := 0 }, hiFS)

/-- A caller buffer holding the bytes of `"bye"`, allocated against `hiFS`
(the write-side buffer mutation scenario). -/
def c2Buf : Buffer × FileSystem := allocBuffer hiFS [98, 121, 101]

/-- `c2Buf`'s file system after writing the caller's buffer at `/a/b.txt`. -/
def c2FS : FileSystem :=
  ((c2Buf.2.writeFileSync "/a/b.txt" c2Buf.1).toOption).getD c2Buf.2

/-- A usable path name: non-empty and without a separator. -/
def CleanName (n : String) : Prop := n ≠ "" ∧ '/' ∉ n.data

/-- A component list as the walker consumes it: the POSIX root followed by
clean names. -/
def GoodComps (cs : List String) : Prop :=
  ∃ names, cs = "/" :: names ∧ ∀ n ∈ names, CleanName n

/-- No `.`/`..` components (what `resolve` guarantees). -/
def DotFree (cs : List String) : Prop := ∀ n ∈ cs, n ≠ "." ∧ n ≠ ".."

-- ======================================================================
-- Lemmas.  Everything below is proof; no further definitions except the
-- concrete scenario file systems used by individual claims.
-- ======================================================================

theorem cmpNats_self (l : List Nat) : vpath.cmpNats l l = Ordering.eq := by
  induction l with
  | nil => rfl
  | cons a as ih => simp [vpath.cmpNats, ih]

theorem cmpNats_swap (l₁ l₂ : List Nat) :
    vpath.cmpNats l₁ l₂ = (vpath.cmpNats l₂ l₁).swap := by
  induction l₁ generalizing l₂ with
  | nil => cases l₂ <;> rfl
  | cons a as ih =>
      cases l₂ with
      | nil => rfl
      | cons b bs =>
          by_cases hab : a < b
          · have hba : ¬ b < a := by omega
            simp [vpath.cmpNats, hab, hba, Ordering.swap]
          · by_cases hba : b < a
            · simp [vpath.cmpNats, hab, hba, Ordering.swap]
            · simp [vpath.cmpNats, hab, hba, ih bs]

theorem cmpNats_lt_trans :
    ∀ {l₁ l₂ l₃ : List Nat}, vpath.cmpNats l₁ l₂ = Ordering.lt →
      vpath.cmpNats l₂ l₃ = Ordering.lt → vpath.cmpNats l₁ l₃ = Ordering.lt
  | [], b :: bs, c :: cs, _, _ => rfl
  | [], [], _, h₁, _ => by simp [vpath.cmpNats] at h₁
  | [], b :: bs, [], _, h₂ => by simp [vpath.cmpNats] at h₂
  | a :: as, [], _, h₁, _ => by simp [vpath.cmpNats] at h₁
  | a :: as, b :: bs, [], _, h₂ => by simp [vpath.cmpNats] at h₂
  | a :: as, b :: bs, c :: cs, h₁, h₂ => by
      by_cases hab : a < b <;> by_cases hbc : b < c
      · have hac : a < c := by omega
        simp [vpath.cmpNats, hac]
      · by_cases hcb : c < b
        · simp [vpath.cmpNats, hbc, hcb] at h₂
        · have hbc' : b = c := by omega
          subst hbc'
          simp [vpath.cmpNats, hab]
      · by_cases hba : b < a
        · simp [vpath.cmpNats, hab, hba] at h₁
        · have hab' : a = b := by omega
          subst hab'
          simp [vpath.cmpNats, hbc]
      · by_cases hba : b < a
        · simp [vpath.cmpNats, hab, hba] at h₁
        · by_cases hcb : c < b
          · simp [vpath.cmpNats, hbc, hcb] at h₂
          · have hab' : a = b := by omega
            have hbc' : b = c := by omega
            subst hab'; subst hbc'
            simp [vpath.cmpNats, Nat.lt_irrefl] at h₁ h₂ ⊢
            exact cmpNats_lt_trans h₁ h₂

theorem cmpNats_eq_iff {l₁ l₂ : List Nat} :
    vpath.cmpNats l₁ l₂ = Ordering.eq ↔ l₁ = l₂ := by
  induction l₁ generalizing l₂ with
  | nil => cases l₂ <;> simp [vpath.cmpNats]
  | cons a as ih =>
      cases l₂ with
      | nil => simp [vpath.cmpNats]
      | cons b bs =>
          by_cases hab : a < b
          · simp [vpath.cmpNats, hab]
            omega
          · by_cases hba : b < a
            · simp [vpath.cmpNats, hab, hba]
              omega
            · have : a = b := by omega
              subst this
              simp [vpath.cmpNats, Nat.lt_irrefl, ih]

theorem cmpLaws_cmpOf (ic : Bool) : CmpLaws (cmpOf ic) := by
  have build : ∀ f : String → List Nat,
      CmpLaws (fun a b => vpath.cmpNats (f a) (f b)) := by
    intro f
    refine ⟨fun a => cmpNats_self _, fun a b => cmpNats_swap _ _,
      fun a b c => cmpNats_lt_trans, fun a b c h => ?_⟩
    rw [cmpNats_eq_iff.mp h]
  cases ic
  · exact build (vpath.keyOf false)
  · exact build (vpath.keyOf true)

theorem CmpLaws.congr_right {cmp} (h : CmpLaws cmp) {a b : String} (c : String)
    (hab : cmp a b = Ordering.eq) : cmp c a = cmp c b := by
  rw [h.swap c a, h.swap c b, h.congr_left a b c hab]

theorem smapGet_smapSet {cmp} (h : CmpLaws cmp) (m : List (String × Nat))
    (k x : String) (v : Nat) :
    smapGet cmp (smapSet cmp m k v) x =
      if cmp x k = Ordering.eq then some v else smapGet cmp m x := by
  induction m with
  | nil => simp [smapSet, smapGet]
  | cons e t ih =>
      obtain ⟨q, w⟩ := e
      cases hc : cmp k q with
      | lt => simp [smapSet, hc, smapGet]
      | eq =>
          have hx := h.congr_right x hc
          simp only [smapSet, hc, smapGet, hx]
          by_cases hxe : cmp x q = Ordering.eq <;> simp [hxe]
      | gt =>
          by_cases hxq : cmp x q = Ordering.eq
          · have hxk : cmp x k ≠ Ordering.eq := by
              intro he
              have h2 := h.congr_left x k q he
              rw [hxq, hc] at h2
              cases h2
            simp [smapSet, hc, smapGet, hxq, hxk]
          · simp [smapSet, hc, smapGet, hxq, ih]

theorem mem_smapSet_val {cmp} {m : List (String × Nat)} {k : String} {v : Nat}
    {e : String × Nat} (he : e ∈ smapSet cmp m k v) :
    e.2 = v ∨ ∃ k', (k', e.2) ∈ m := by
  induction m with
  | nil =>
      simp [smapSet] at he
      simp [he]
  | cons f t ih =>
      obtain ⟨q, w⟩ := f
      cases hc : cmp k q with
      | lt =>
          simp only [smapSet, hc, List.mem_cons] at he
          rcases he with he | he | he
          · exact Or.inl (by rw [he])
          · exact Or.inr ⟨q, by rw [he]; exact List.mem_cons_self _ _⟩
          · exact Or.inr ⟨e.1, by
              have : (e.1, e.2) = e := rfl
              rw [this]
              exact List.mem_cons_of_mem _ he⟩
      | eq =>
          simp only [smapSet, hc, List.mem_cons] at he
          rcases he with he | he
          · exact Or.inl (by rw [he])
          · exact Or.inr ⟨e.1, by
              have : (e.1, e.2) = e := rfl
              rw [this]
              exact List.mem_cons_of_mem _ he⟩
      | gt =>
          simp only [smapSet, hc, List.mem_cons] at he
          rcases he with he | he
          · exact Or.inr ⟨q, by rw [he]; exact List.mem_cons_self _ _⟩
          · rcases ih he with h1 | ⟨k', h1⟩
            · exact Or.inl h1
            · exact Or.inr ⟨k', List.mem_cons_of_mem _ h1⟩

theorem mem_smapFromList {cmp} {l : List (String × Nat)} {e : String × Nat}
    (he : e ∈ smapFromList cmp l) : ∃ k, (k, e.2) ∈ l := by
  suffices hgen : ∀ (rest acc : List (String × Nat)) (f : String × Nat),
      f ∈ rest.foldl (fun mm q => smapSet cmp mm q.1 q.2) acc →
      (∃ k, (k, f.2) ∈ acc) ∨ ∃ k, (k, f.2) ∈ rest by
    rcases hgen l [] e he with ⟨k, hf⟩ | hf
    · cases hf
    · exact hf
  intro rest
  induction rest with
  | nil =>
      intro acc f hf
      exact Or.inl ⟨f.1, by simpa using hf⟩
  | cons q t ih =>
      intro acc f hf
      simp only [List.foldl_cons] at hf
      rcases ih _ f hf with ⟨k, hk⟩ | ⟨k, hk⟩
      · rcases mem_smapSet_val hk with h1 | ⟨k', h1⟩
        · exact Or.inr ⟨q.1, by rw [h1]; exact List.mem_cons_self _ _⟩
        · exact Or.inl ⟨k', h1⟩
      · exact Or.inr ⟨k, List.mem_cons_of_mem _ hk⟩

theorem smapGet_mem {cmp} {m : List (String × Nat)} {x : String} {v : Nat}
    (hg : smapGet cmp m x = some v) : ∃ k, (k, v) ∈ m := by
  induction m with
  | nil => cases hg
  | cons f t ih =>
      obtain ⟨q, w⟩ := f
      by_cases hc : cmp x q = Ordering.eq
      · simp only [smapGet, hc, if_true, Option.some.injEq] at hg
        exact ⟨q, by rw [← hg]; exact List.mem_cons_self _ _⟩
      · simp only [smapGet, if_neg hc] at hg
        rcases ih hg with ⟨k, hk⟩
        exact ⟨k, List.mem_cons_of_mem _ hk⟩

theorem smapWfB_iff {cmp} (h : CmpLaws cmp) :
    ∀ {m : List (String × Nat)}, smapWfB cmp m = true ↔ SMapWf cmp m := by
  intro m
  induction m with
  | nil => simp [smapWfB, SMapWf]
  | cons f t ih =>
      cases t with
      | nil => simp [smapWfB, SMapWf]
      | cons g s =>
          rw [smapWfB, Bool.and_eq_true, ih]
          constructor
          · rintro ⟨h1, h2⟩
            have hfg : cmp f.1 g.1 = Ordering.lt := of_decide_eq_true h1
            rw [SMapWf, List.pairwise_cons]
            refine ⟨?_, h2⟩
            intro e he
            rcases List.mem_cons.mp he with he | he
            · rw [he]; exact hfg
            · rw [SMapWf, List.pairwise_cons] at h2
              exact h.lt_trans f.1 g.1 e.1 hfg (h2.1 e he)
          · intro hw
            rw [SMapWf, List.pairwise_cons] at hw
            refine ⟨?_, hw.2⟩
            have := hw.1 g (List.mem_cons_self g s)
            simp [this]

theorem wf_core {fs : FileSystem} (h : fs.Wf = true) : coreWf fs.core = true := by
  cases fs with
  | base core => exact h
  | layer core parent =>
      rw [FileSystem.Wf, Bool.and_eq_true, Bool.and_eq_true] at h
      exact h.1.1

theorem wf_shadow {core : FSCore} {p : FileSystem}
    (h : (FileSystem.layer core p).Wf = true) :
    p.Wf = true ∧ p.core.nextIno ≤ core.nextIno := by
  rw [FileSystem.Wf, Bool.and_eq_true, Bool.and_eq_true] at h
  exact ⟨h.1.2, of_decide_eq_true h.2⟩

theorem coreWf_store_mem {core : FSCore} (h : coreWf core = true)
    {e : Nat × Inode} (he : e ∈ core.store) :
    e.2.ino = e.1 ∧ e.1 ≤ core.nextIno ∧
    (∀ m, e.2.links = some m →
      SMapWf (cmpOf core.ignoreCase) m ∧ ∀ q ∈ m, q.2 ≤ core.nextIno) ∧
    (∀ b, e.2.bufId = some b → b < core.bufs.length) := by
  rw [coreWf, Bool.and_eq_true] at h
  have he' := (List.all_eq_true.mp h.1) e he
  rw [Bool.and_eq_true, Bool.and_eq_true, Bool.and_eq_true] at he'
  refine ⟨by simpa using he'.1.1.1, by simpa using he'.1.1.2, ?_, ?_⟩
  · intro m hm
    have h2 := he'.1.2
    rw [hm] at h2
    rw [Bool.and_eq_true] at h2
    refine ⟨(smapWfB_iff (cmpLaws_cmpOf core.ignoreCase)).mp h2.1, ?_⟩
    intro q hq
    have := (List.all_eq_true.mp h2.2) q hq
    simpa using this
  · intro b hb
    have h2 := he'.2
    rw [hb] at h2
    simpa using h2

theorem coreWf_root {core : FSCore} (h : coreWf core = true)
    {m : List (String × Nat)} (hm : core.rootLinks = some m) :
    SMapWf (cmpOf core.ignoreCase) m ∧ ∀ q ∈ m, q.2 ≤ core.nextIno := by
  rw [coreWf, Bool.and_eq_true] at h
  have h2 := h.2
  rw [hm] at h2
  rw [Bool.and_eq_true] at h2
  refine ⟨(smapWfB_iff (cmpLaws_cmpOf core.ignoreCase)).mp h2.1, ?_⟩
  intro q hq
  have := (List.all_eq_true.mp h2.2) q hq
  simpa using this

theorem storeGet_mem {s : List (Nat × Inode)} {i : Nat} {n : Inode}
    (hg : storeGet s i = some n) : (i, n) ∈ s := by
  rw [storeGet] at hg
  cases hf : s.find? (fun e => e.1 = i) with
  | none => rw [hf] at hg; cases hg
  | some e =>
      rw [hf] at hg
      have hp := List.find?_some hf
      have hmem := List.mem_of_find?_eq_some hf
      have h1 : e.1 = i := by simpa using hp
      have h2 : e.2 = n := by simpa using hg
      rw [← h1, ← h2]
      exact hmem

theorem wf_lookup_ino :
    ∀ {fs : FileSystem}, fs.Wf = true →
      ∀ {i : Nat} {n : Inode}, fs.lookupNode i = some n → n.ino = i
  | .base core, h, i, n, hl => by
      rw [FileSystem.lookupNode] at hl
      exact (coreWf_store_mem (wf_core h) (storeGet_mem hl)).1
  | .layer core parent, h, i, n, hl => by
      rw [FileSystem.lookupNode] at hl
      cases hg : storeGet core.store i with
      | some m =>
          rw [hg] at hl
          cases hl
          exact (coreWf_store_mem (wf_core h) (storeGet_mem hg)).1
      | none =>
          rw [hg] at hl
          cases hroot : parent.lookupNode i with
          | none => rw [hroot] at hl; cases hl
          | some root =>
              rw [hroot] at hl
              have hn : shadowOf root = n := by simpa using hl
              have hpwf := (wf_shadow h).1
              have := wf_lookup_ino hpwf hroot
              rw [← hn]
              simpa [shadowOf] using this

theorem wf_lookup_le :
    ∀ {fs : FileSystem}, fs.Wf = true →
      ∀ {i : Nat} {n : Inode}, fs.lookupNode i = some n →
        i ≤ fs.core.nextIno
  | .base core, h, i, n, hl => by
      rw [FileSystem.lookupNode] at hl
      exact (coreWf_store_mem (wf_core h) (storeGet_mem hl)).2.1
  | .layer core parent, h, i, n, hl => by
      rw [FileSystem.lookupNode] at hl
      cases hg : storeGet core.store i with
      | some m =>
          rw [hg] at hl
          exact (coreWf_store_mem (wf_core h) (storeGet_mem hg)).2.1
      | none =>
          rw [hg] at hl
          cases hroot : parent.lookupNode i with
          | none => rw [hroot] at hl; cases hl
          | some root =>
              have hsh := wf_shadow h
              have := wf_lookup_le hsh.1 hroot
              exact le_trans this hsh.2

theorem wf_lookup_none {fs : FileSystem} (h : fs.Wf = true) {i : Nat}
    (hi : fs.core.nextIno < i) : fs.lookupNode i = none := by
  cases hl : fs.lookupNode i with
  | none => rfl
  | some n =>
      have := wf_lookup_le h hl
      omega

theorem string_ext {a b : String} (h : a.data = b.data) : a = b := by
  cases a
  cases b
  exact congrArg String.mk h

theorem splitSep_no_slash (xs : List Char) (h : '/' ∉ xs) (acc : List Char) :
    vpath.splitSep xs acc = [String.mk (acc.reverse ++ xs)] := by
  induction xs generalizing acc with
  | nil => simp [vpath.splitSep]
  | cons c cs ih =>
      have hc : ¬ (c = '/') := fun hcc => h (hcc ▸ List.mem_cons_self c cs)
      rw [vpath.splitSep, if_neg hc,
        ih (fun hm => h (List.mem_cons_of_mem c hm)) (c :: acc)]
      simp

theorem splitSep_break (xs : List Char) (h : '/' ∉ xs) (ys acc : List Char) :
    vpath.splitSep (xs ++ '/' :: ys) acc =
      String.mk (acc.reverse ++ xs) :: vpath.splitSep ys [] := by
  induction xs generalizing acc with
  | nil => simp [vpath.splitSep]
  | cons c cs ih =>
      have hc : ¬ (c = '/') := fun hcc => h (hcc ▸ List.mem_cons_self c cs)
      rw [List.cons_append, vpath.splitSep, if_neg hc,
        ih (fun hm => h (List.mem_cons_of_mem c hm)) (c :: acc)]
      simp

theorem mem_splitSep_no_slash :
    ∀ {xs acc : List Char} {s : String},
      s ∈ vpath.splitSep xs acc → '/' ∉ acc → '/' ∉ s.data := by
  intro xs
  induction xs with
  | nil =>
      intro acc s hs hacc
      simp [vpath.splitSep] at hs
      rw [hs]
      intro hm
      exact hacc (List.mem_reverse.mp hm)
  | cons c cs ih =>
      intro acc s hs hacc
      by_cases hc : c = '/'
      · rw [vpath.splitSep, if_pos hc] at hs
        rcases List.mem_cons.mp hs with hs | hs
        · rw [hs]
          intro hm
          exact hacc (List.mem_reverse.mp hm)
        · exact ih hs (List.not_mem_nil '/')
      · rw [vpath.splitSep, if_neg hc] at hs
        refine ih hs ?_
        intro hm
        rcases List.mem_cons.mp hm with hm | hm
        · exact hc hm.symm
        · exact hacc hm

theorem joinNames_two (n m : String) (ms : List String) :
    vpath.joinNames (n :: m :: ms) = n ++ "/" ++ vpath.joinNames (m :: ms) :=
  rfl

theorem splitSep_joinNames (ns : List String) (h : ∀ n ∈ ns, CleanName n) :
    (vpath.splitSep (vpath.joinNames ns).data []).filter (fun s => s ≠ "") =
      ns := by
  induction ns with
  | nil => simp [vpath.joinNames, vpath.splitSep]
  | cons n ns ih =>
      cases ns with
      | nil =>
          have hn := h n (List.mem_cons_self n [])
          rw [vpath.joinNames, splitSep_no_slash n.data hn.2 []]
          simp only [List.reverse_nil, List.nil_append]
          have hmk : String.mk n.data = n := rfl
          rw [hmk, List.filter_cons]
          simp [hn.1]
      | cons m ms =>
          have hn := h n (List.mem_cons_self n (m :: ms))
          have hdata : (vpath.joinNames (n :: m :: ms)).data =
              n.data ++ '/' :: (vpath.joinNames (m :: ms)).data := by
            rw [joinNames_two, String.data_append, String.data_append]
            simp
          rw [hdata, splitSep_break n.data hn.2 _ []]
          simp only [List.reverse_nil, List.nil_append]
          have hmk : String.mk n.data = n := rfl
          rw [hmk, List.filter_cons]
          have htail := ih (fun q hq => h q (List.mem_cons_of_mem n hq))
          simp [hn.1]
          simpa using htail

theorem format_data (ns : List String) :
    (vpath.format ("/" :: ns)).data = '/' :: (vpath.joinNames ns).data := by
  rw [vpath.format, String.data_append]
  rfl

theorem isAbsolute_format (ns : List String) :
    vpath.isAbsolute (vpath.format ("/" :: ns)) = true := by
  rw [vpath.isAbsolute, format_data]
  simp

theorem nameList_format (ns : List String) (h : ∀ n ∈ ns, CleanName n) :
    vpath.nameList (vpath.format ("/" :: ns)) = ns := by
  rw [vpath.nameList, format_data, vpath.splitSep, if_pos rfl, List.filter_cons]
  have hmk : String.mk List.nil.reverse = "" := rfl
  rw [hmk]
  simpa using splitSep_joinNames ns h

theorem parse_format (ns : List String) (h : ∀ n ∈ ns, CleanName n) :
    vpath.parse (vpath.format ("/" :: ns)) = "/" :: ns := by
  rw [vpath.parse, if_pos (isAbsolute_format ns), nameList_format ns h]

theorem mem_collapse :
    ∀ {ns acc : List String} {n : String}, n ∈ vpath.collapse acc ns →
      n ∈ acc ∨ (n ∈ ns ∧ n ≠ "." ∧ n ≠ "..") := by
  intro ns
  induction ns with
  | nil =>
      intro acc n h
      rw [vpath.collapse] at h
      exact Or.inl (List.mem_reverse.mp h)
  | cons m ms ih =>
      intro acc n h
      rw [vpath.collapse] at h
      by_cases h1 : m = "."
      · rw [if_pos h1] at h
        rcases ih h with h2 | h2
        · exact Or.inl h2
        · exact Or.inr ⟨List.mem_cons_of_mem m h2.1, h2.2⟩
      · rw [if_neg h1] at h
        by_cases h2 : m = ".."
        · rw [if_pos h2] at h
          rcases ih h with h3 | h3
          · exact Or.inl (List.drop_subset 1 acc h3)
          · exact Or.inr ⟨List.mem_cons_of_mem m h3.1, h3.2⟩
        · rw [if_neg h2] at h
          rcases ih h with h3 | h3
          · rcases List.mem_cons.mp h3 with h4 | h4
            · exact Or.inr ⟨h4 ▸ List.mem_cons_self m ms, h4 ▸ h1, h4 ▸ h2⟩
            · exact Or.inl h4
          · exact Or.inr ⟨List.mem_cons_of_mem m h3.1, h3.2⟩

theorem collapse_no_dots :
    ∀ (ns : List String), (∀ n ∈ ns, n ≠ "." ∧ n ≠ "..") →
      ∀ acc, vpath.collapse acc ns = acc.reverse ++ ns := by
  intro ns
  induction ns with
  | nil =>
      intro _ acc
      simp [vpath.collapse]
  | cons m ms ih =>
      intro h acc
      have hm := h m (List.mem_cons_self m ms)
      rw [vpath.collapse, if_neg hm.1, if_neg hm.2,
        ih (fun q hq => h q (List.mem_cons_of_mem m hq)) (m :: acc)]
      simp

theorem mem_nameList_clean {p : String} {n : String}
    (h : n ∈ vpath.nameList p) : CleanName n := by
  rw [vpath.nameList] at h
  have h1 := List.of_mem_filter h
  have h2 := List.mem_of_mem_filter h
  exact ⟨of_decide_eq_true h1, mem_splitSep_no_slash h2 (List.not_mem_nil '/')⟩

theorem normalize_shape (p : String) :
    ∃ names, vpath.normalize p = vpath.format ("/" :: names) ∧
      (∀ n ∈ names, CleanName n) ∧ (∀ n ∈ names, n ≠ "." ∧ n ≠ "..") := by
  refine ⟨vpath.collapse [] (vpath.nameList p), rfl, ?_, ?_⟩
  · intro n hn
    rcases mem_collapse hn with h1 | h1
    · cases h1
    · exact mem_nameList_clean h1.1
  · intro n hn
    rcases mem_collapse hn with h1 | h1
    · cases h1
    · exact h1.2

theorem normalize_format_good (ns : List String)
    (hclean : ∀ n ∈ ns, CleanName n) (hdf : ∀ n ∈ ns, n ≠ "." ∧ n ≠ "..") :
    vpath.normalize (vpath.format ("/" :: ns)) = vpath.format ("/" :: ns) := by
  rw [vpath.normalize, nameList_format ns hclean, collapse_no_dots ns hdf []]
  simp

theorem resolve_format_good (base : String) (ns : List String)
    (hclean : ∀ n ∈ ns, CleanName n) (hdf : ∀ n ∈ ns, n ≠ "." ∧ n ≠ "..") :
    vpath.resolve base (vpath.format ("/" :: ns)) = vpath.format ("/" :: ns) := by
  rw [vpath.resolve, if_pos (isAbsolute_format ns)]
  exact normalize_format_good ns hclean hdf

theorem resolve_is_normalize (b p : String) :
    ∃ q, vpath.resolve b p = vpath.normalize q := by
  rw [vpath.resolve]
  by_cases h : vpath.isAbsolute p = true
  · exact ⟨p, by rw [if_pos h]⟩
  · exact ⟨b ++ "/" ++ p, by rw [if_neg h]⟩

theorem resolve_shape (b p : String) :
    ∃ names, vpath.resolve b p = vpath.format ("/" :: names) ∧
      (∀ n ∈ names, CleanName n) ∧ (∀ n ∈ names, n ≠ "." ∧ n ≠ "..") := by
  obtain ⟨q, hq⟩ := resolve_is_normalize b p
  obtain ⟨names, h1, h2, h3⟩ := normalize_shape q
  exact ⟨names, by rw [hq, h1], h2, h3⟩

theorem good_tail {consumed rest' : List String} {basename : String}
    (hg : GoodComps (consumed ++ basename :: rest')) :
    ∀ x ∈ rest', CleanName x := by
  obtain ⟨names, heq, hcl⟩ := hg
  cases consumed with
  | nil =>
      simp only [List.nil_append] at heq
      injection heq with h1 h2
      intro x hx
      exact hcl x (h2 ▸ hx)
  | cons c cs =>
      rw [List.cons_append] at heq
      injection heq with h1 h2
      intro x hx
      refine hcl x ?_
      rw [← h2]
      exact List.mem_append_right cs (List.mem_cons_of_mem basename hx)

theorem dot_tail {consumed rest' : List String} {basename : String}
    (hdf : DotFree (consumed ++ basename :: rest')) :
    ∀ x ∈ rest', x ≠ "." ∧ x ≠ ".." := fun x hx =>
  hdf x (List.mem_append_right consumed (List.mem_cons_of_mem basename hx))

theorem retrace_inner (fs : FileSystem) (k : Nat)
    (IH : ∀ comps w, GoodComps comps →
      walkFuel fs false k comps = .ok w →
      walkFuel fs false 40 (vpath.parse w.realpath) = .ok w ∧
      (∃ names, w.realpath = vpath.format ("/" :: names) ∧
        (∀ n ∈ names, CleanName n) ∧
        (DotFree comps → ∀ n ∈ names, n ≠ "." ∧ n ≠ ".."))) :
    ∀ (rest consumed : List String) (links : List (String × Nat))
      (parent : Option Inode) (w : WalkResult),
      GoodComps (consumed ++ rest) →
      (∀ sp, walkInner fs false sp [] (consumed ++ rest) fs.rootLinksView none =
        walkInner fs false sp consumed rest links parent) →
      walkInner fs false (fun cs => walkFuel fs false k cs) consumed rest links
        parent = .ok w →
      walkFuel fs false 40 (vpath.parse w.realpath) = .ok w ∧
      (∃ names, w.realpath = vpath.format ("/" :: names) ∧
        (∀ n ∈ names, CleanName n) ∧
        (DotFree (consumed ++ rest) → ∀ n ∈ names, n ≠ "." ∧ n ≠ "..")) := by
  intro rest
  induction rest with
  | nil =>
      intro consumed links parent w _ _ hrun
      rw [walkInner] at hrun
      cases hrun
  | cons basename rest' ih =>
      intro consumed links parent w hg hinv hrun
      rw [walkInner] at hrun
      by_cases hguard : rest' = [] ∧
          ((false : Bool) = true ∨
            ¬ isSymlink ((smapGet fs.cmp links basename).bind fs.lookupNode) = true)
      · rw [if_pos hguard] at hrun
        obtain ⟨hrest, hsym⟩ := hguard
        subst hrest
        injection hrun with hw
        subst hw
        obtain ⟨names, heq, hcl⟩ := hg
        constructor
        · rw [show (vpath.format (consumed ++ [basename])) =
              (vpath.format ("/" :: names)) from by rw [← heq]]
          rw [parse_format names hcl, ← heq]
          rw [walkFuel]
          rw [hinv (fun cs => walkFuel fs false 39 cs)]
          rw [walkInner, if_pos ⟨rfl, hsym⟩]
        · refine ⟨names, by rw [← heq], hcl, ?_⟩
          intro hdf n hn
          exact hdf n (heq ▸ List.mem_cons_of_mem _ hn)
      · rw [if_neg hguard] at hrun
        cases hnd : (smapGet fs.cmp links basename).bind fs.lookupNode with
        | none =>
            rw [hnd] at hrun
            cases hrun
        | some n =>
            rw [hnd] at hrun
            dsimp only at hrun
            by_cases hsym : isSymlink (some n) = true
            · rw [if_pos hsym] at hrun
              obtain ⟨tns, htgt, htcl, htdf⟩ :=
                resolve_shape (vpath.format consumed) (n.symlink.getD "")
              have hgood2 : GoodComps
                  (vpath.parse
                    (vpath.resolve (vpath.format consumed) (n.symlink.getD "")) ++
                    rest') := by
                rw [htgt, parse_format tns htcl]
                refine ⟨tns ++ rest', by simp, ?_⟩
                intro x hx
                rcases List.mem_append.mp hx with hx | hx
                · exact htcl x hx
                · exact good_tail hg x hx
              have hres := IH _ w hgood2 hrun
              refine ⟨hres.1, ?_⟩
              obtain ⟨ns2, h1, h2, h3⟩ := hres.2
              refine ⟨ns2, h1, h2, ?_⟩
              intro hdf
              refine h3 ?_
              intro x hx
              rw [htgt, parse_format tns htcl] at hx
              rcases List.mem_cons.mp hx with hx | hx
              · subst hx
                exact ⟨by decide, by decide⟩
              · rcases List.mem_append.mp hx with hx | hx
                · exact htdf x hx
                · exact dot_tail hdf x hx
            · rw [if_neg hsym] at hrun
              by_cases hdir : isDirectory (some n) = true
              · rw [if_pos hdir] at hrun
                have hinv2 : ∀ sp,
                    walkInner fs false sp []
                      ((consumed ++ [basename]) ++ rest') fs.rootLinksView none =
                    walkInner fs false sp (consumed ++ [basename]) rest'
                      (fs.linksView n) (some n) := by
                  intro sp
                  rw [show (consumed ++ [basename]) ++ rest' =
                      consumed ++ basename :: rest' from by simp]
                  rw [hinv sp]
                  conv_lhs => rw [walkInner]
                  rw [if_neg hguard, hnd]
                  dsimp only
                  rw [if_neg hsym, if_pos hdir]
                have hrec := ih (consumed ++ [basename]) (fs.linksView n)
                  (some n) w
                  (by rw [show (consumed ++ [basename]) ++ rest' =
                      consumed ++ basename :: rest' from by simp]; exact hg)
                  hinv2 hrun
                refine ⟨hrec.1, ?_⟩
                obtain ⟨ns2, h1, h2, h3⟩ := hrec.2
                refine ⟨ns2, h1, h2, ?_⟩
                intro hdf
                refine h3 ?_
                rw [show (consumed ++ [basename]) ++ rest' =
                    consumed ++ basename :: rest' from by simp]
                exact hdf
              · rw [if_neg hdir] at hrun
                cases hrun

theorem retrace (fs : FileSystem) :
    ∀ (k : Nat) (comps : List String) (w : WalkResult), GoodComps comps →
      walkFuel fs false k comps = .ok w →
      walkFuel fs false 40 (vpath.parse w.realpath) = .ok w ∧
      (∃ names, w.realpath = vpath.format ("/" :: names) ∧
        (∀ n ∈ names, CleanName n) ∧
        (DotFree comps → ∀ n ∈ names, n ≠ "." ∧ n ≠ "..")) := by
  intro k
  induction k with
  | zero =>
      intro comps w _ hrun
      rw [walkFuel] at hrun
      cases hrun
  | succ k ihk =>
      intro comps w hg hrun
      rw [walkFuel] at hrun
      exact retrace_inner fs k ihk comps [] fs.rootLinksView none w
        (by simpa using hg) (fun sp => rfl) hrun

theorem smapGet_congr {cmp} (h : CmpLaws cmp) {x y : String}
    (hxy : cmp x y = Ordering.eq) (m : List (String × Nat)) :
    smapGet cmp m x = smapGet cmp m y := by
  induction m with
  | nil => rfl
  | cons e t ih =>
      rw [smapGet, smapGet, h.congr_left x y e.1 hxy, ih]

theorem linksView_congr {fs : FileSystem} {u v : Inode}
    (hl : v.links = u.links) (hs : v.shadowRoot = u.shadowRoot) :
    fs.linksView v = fs.linksView u := by
  cases fs with
  | base core => rw [FileSystem.linksView, FileSystem.linksView, hl]
  | layer core parent => rw [FileSystem.linksView, FileSystem.linksView, hl, hs]

theorem cmp_congr {fs fs' : FileSystem}
    (hic : fs'.core.ignoreCase = fs.core.ignoreCase) : fs'.cmp = fs.cmp := by
  rw [FileSystem.cmp, FileSystem.cmp, hic]

theorem walkInner_sim_update (fs fs' : FileSystem) (nf : Bool) (n0 n1 : Inode)
    (hcons : ∀ i n, fs.lookupNode i = some n → n.ino = i)
    (hic : fs'.core.ignoreCase = fs.core.ignoreCase)
    (hlv : ∀ v, fs'.linksView v = fs.linksView v)
    (hl0 : fs.lookupNode n0.ino = some n0)
    (hl1 : fs'.lookupNode n0.ino = some n1)
    (hlo : ∀ i, i ≠ n0.ino → fs'.lookupNode i = fs.lookupNode i)
    (hmode : n1.mode = n0.mode)
    (hlinksf : n1.links = n0.links)
    (hsyml : n1.symlink = n0.symlink)
    (hshr : n1.shadowRoot = n0.shadowRoot)
    (sp sp' : List String → Except Err WalkResult)
    (hsp : ∀ cs w, sp cs = .ok w →
      ∃ w', sp' cs = .ok w' ∧
        w'.realpath = w.realpath ∧ w'.basename = w.basename ∧
        w'.links = w.links ∧
        w'.node = (if w.node = some n0 then some n1 else w.node) ∧
        w'.parent = (if w.parent = some n0 then some n1 else w.parent)) :
    ∀ (rest consumed : List String) (links : List (String × Nat))
      (parent parent' : Option Inode)
      (hpar : parent' = (if parent = some n0 then some n1 else parent))
      (w : WalkResult),
      walkInner fs nf sp consumed rest links parent = .ok w →
      ∃ w', walkInner fs' nf sp' consumed rest links parent' = .ok w' ∧
        w'.realpath = w.realpath ∧ w'.basename = w.basename ∧
        w'.links = w.links ∧
        w'.node = (if w.node = some n0 then some n1 else w.node) ∧
        w'.parent = (if w.parent = some n0 then some n1 else w.parent) := by
  intro rest
  induction rest with
  | nil =>
      intro consumed links parent parent' hpar w hrun
      rw [walkInner] at hrun
      cases hrun
  | cons basename rest' ih =>
      intro consumed links parent parent' hpar w hrun
      rw [walkInner] at hrun
      rw [walkInner]
      -- the two runs look up the same map entry
      have hnode :
          (smapGet fs'.cmp links basename).bind fs'.lookupNode =
            (if ((smapGet fs.cmp links basename).bind fs.lookupNode) = some n0
             then some n1
             else (smapGet fs.cmp links basename).bind fs.lookupNode) := by
        rw [cmp_congr hic]
        cases hj : smapGet fs.cmp links basename with
        | none => simp
        | some j =>
            change fs'.lookupNode j =
              if fs.lookupNode j = some n0 then some n1 else fs.lookupNode j
            by_cases hji : j = n0.ino
            · subst hji
              rw [hl1, hl0]
              simp
            · rw [hlo j hji]
              cases hv : fs.lookupNode j with
              | none => simp
              | some v =>
                  have hne : ¬ (some v = some n0) := by
                    intro hvv
                    injection hvv with hvv
                    subst hvv
                    exact hji (hcons j v hv).symm
                  simp [hne]
      set fsnode := (smapGet fs.cmp links basename).bind fs.lookupNode with hfsnode
      have hsymEq : isSymlink ((if fsnode = some n0 then some n1 else fsnode)) =
          isSymlink fsnode := by
        by_cases hq : fsnode = some n0
        · rw [if_pos hq, hq]
          rw [isSymlink, isSymlink, hmode]
        · rw [if_neg hq]
      by_cases hguard : rest' = [] ∧ (nf = true ∨ ¬ isSymlink fsnode = true)
      · rw [if_pos hguard] at hrun
        injection hrun with hw
        subst hw
        have hguard2 : rest' = [] ∧ (nf = true ∨
            ¬ isSymlink ((smapGet fs'.cmp links basename).bind fs'.lookupNode) =
              true) := by
          refine ⟨hguard.1, ?_⟩
          rw [hnode, hsymEq]
          exact hguard.2
        exact ⟨{ realpath := vpath.format (consumed ++ [basename]),
                 basename := basename, parent := parent', links := links,
                 node := (smapGet fs'.cmp links basename).bind fs'.lookupNode },
               by rw [if_pos hguard2], rfl, rfl, rfl, hnode, hpar⟩
      · rw [if_neg hguard] at hrun
        have hguard' : ¬ (rest' = [] ∧
            (nf = true ∨
              ¬ isSymlink ((smapGet fs'.cmp links basename).bind fs'.lookupNode) =
                true)) := by
          rw [hnode, hsymEq]
          exact hguard
        rw [if_neg hguard']
        cases hq : fsnode with
        | none =>
            rw [hq] at hrun
            cases hrun
        | some v =>
            rw [hq] at hrun
            dsimp only at hrun
            by_cases hvn0 : v = n0
            · subst hvn0
              have : (smapGet fs'.cmp links basename).bind fs'.lookupNode =
                  some n1 := by
                rw [hnode, hq, if_pos rfl]
              rw [this]
              dsimp only
              by_cases hsym : isSymlink (some v) = true
              · rw [if_pos hsym] at hrun
                rw [if_pos (by rw [isSymlink, hmode]; rw [isSymlink] at hsym; exact hsym)]
                rw [hsyml]
                exact hsp _ w hrun
              · rw [if_neg hsym] at hrun
                rw [if_neg (by rw [isSymlink, hmode]; rw [isSymlink] at hsym; exact hsym)]
                by_cases hdir : isDirectory (some v) = true
                · rw [if_pos hdir] at hrun
                  rw [if_pos (by rw [isDirectory, hmode]; rw [isDirectory] at hdir; exact hdir)]
                  rw [hlv n1, linksView_congr hlinksf hshr]
                  exact ih (consumed ++ [basename]) (fs.linksView v) (some v)
                    (some n1) (by rw [if_pos rfl]) w hrun
                · rw [if_neg hdir] at hrun
                  rw [if_neg (by rw [isDirectory, hmode]; rw [isDirectory] at hdir; exact hdir)]
                  cases hrun
            · have : (smapGet fs'.cmp links basename).bind fs'.lookupNode =
                  some v := by
                rw [hnode, hq, if_neg (by intro hc; injection hc with hc; exact hvn0 hc)]
              rw [this]
              dsimp only
              by_cases hsym : isSymlink (some v) = true
              · rw [if_pos hsym] at hrun
                rw [if_pos hsym]
                exact hsp _ w hrun
              · rw [if_neg hsym] at hrun
                rw [if_neg hsym]
                by_cases hdir : isDirectory (some v) = true
                · rw [if_pos hdir] at hrun
                  rw [if_pos hdir]
                  rw [hlv v]
                  exact ih (consumed ++ [basename]) (fs.linksView v) (some v)
                    (some v)
                    (by rw [if_neg (by intro hc; injection hc with hc; exact hvn0 hc)])
                    w hrun
                · rw [if_neg hdir] at hrun
                  rw [if_neg hdir]
                  cases hrun

theorem walkFuel_sim_update (fs fs' : FileSystem) (nf : Bool) (n0 n1 : Inode)
    (hcons : ∀ i n, fs.lookupNode i = some n → n.ino = i)
    (hic : fs'.core.ignoreCase = fs.core.ignoreCase)
    (hroot : fs'.rootLinksView = fs.rootLinksView)
    (hlv : ∀ v, fs'.linksView v = fs.linksView v)
    (hl0 : fs.lookupNode n0.ino = some n0)
    (hl1 : fs'.lookupNode n0.ino = some n1)
    (hlo : ∀ i, i ≠ n0.ino → fs'.lookupNode i = fs.lookupNode i)
    (hmode : n1.mode = n0.mode)
    (hlinksf : n1.links = n0.links)
    (hsyml : n1.symlink = n0.symlink)
    (hshr : n1.shadowRoot = n0.shadowRoot) :
    ∀ (k : Nat) (comps : List String) (w : WalkResult),
      walkFuel fs nf k comps = .ok w →
      ∃ w', walkFuel fs' nf k comps = .ok w' ∧
        w'.realpath = w.realpath ∧ w'.basename = w.basename ∧
        w'.links = w.links ∧
        w'.node = (if w.node = some n0 then some n1 else w.node) ∧
        w'.parent = (if w.parent = some n0 then some n1 else w.parent) := by
  intro k
  induction k with
  | zero =>
      intro comps w hrun
      rw [walkFuel] at hrun
      cases hrun
  | succ k ihk =>
      intro comps w hrun
      rw [walkFuel] at hrun
      rw [walkFuel, hroot]
      exact walkInner_sim_update fs fs' nf n0 n1 hcons hic hlv hl0 hl1 hlo
        hmode hlinksf hsyml hshr _ _ (fun cs w2 h2 => ihk cs w2 h2)
        comps [] fs.rootLinksView none none (by rw [if_neg (by simp)]) w hrun

theorem ok_bind {α β : Type} (a : α) (f : α → Except Err β) :
    (Except.ok a >>= f : Except Err β) = f a := rfl

theorem error_bind {α β : Type} (e : Err) (f : α → Except Err β) :
    (Except.error e >>= f : Except Err β) = Except.error e := rfl

-- ----------------------------------------------------------------------
-- Store, core and buffer plumbing.
-- ----------------------------------------------------------------------

theorem storeGet_storeSet_self (s : List (Nat × Inode)) (i : Nat) (n : Inode) :
    storeGet (storeSet s i n) i = some n := by
  induction s with
  | nil => simp [storeSet, storeGet]
  | cons e t ih =>
      obtain ⟨j, m⟩ := e
      by_cases hji : j = i
      · simp [storeSet, hji, storeGet]
      · simp only [storeSet, if_neg hji]
        simpa [storeGet, hji] using ih

theorem storeGet_storeSet_ne (s : List (Nat × Inode)) (i : Nat) (n : Inode)
    (j : Nat) (h : j ≠ i) : storeGet (storeSet s i n) j = storeGet s j := by
  induction s with
  | nil => simp [storeSet, storeGet, Ne.symm h]
  | cons e t ih =>
      obtain ⟨k, m⟩ := e
      by_cases hki : k = i
      · subst hki
        simp [storeSet, storeGet, Ne.symm h, h]
      · simp only [storeSet, if_neg hki]
        by_cases hkj : k = j
        · simp [storeGet, hkj]
        · simpa [storeGet, hkj] using ih

theorem core_withCore (fs : FileSystem) (c : FSCore) : (fs.withCore c).core = c := by
  cases fs <;> rfl

theorem shadowFS_withCore (fs : FileSystem) (c : FSCore) :
    (fs.withCore c).shadowFS = fs.shadowFS := by
  cases fs <;> rfl

theorem lookupNode_withCore (fs : FileSystem) (c : FSCore)
    (h : c.store = fs.core.store) (i : Nat) :
    (fs.withCore c).lookupNode i = fs.lookupNode i := by
  cases fs with
  | base core =>
      rw [FileSystem.core] at h
      rw [FileSystem.withCore, FileSystem.lookupNode, FileSystem.lookupNode, h]
  | layer core parent =>
      rw [FileSystem.core] at h
      rw [FileSystem.withCore, FileSystem.lookupNode, FileSystem.lookupNode, h]

theorem lookupNode_storeSetNode_self (fs : FileSystem) (n : Inode) :
    (fs.storeSetNode n).lookupNode n.ino = some n := by
  cases fs with
  | base core =>
      show storeGet (storeSet core.store n.ino n) n.ino = some n
      exact storeGet_storeSet_self _ _ _
  | layer core parent =>
      show (match storeGet (storeSet core.store n.ino n) n.ino with
            | some nn => some nn
            | none => (parent.lookupNode n.ino).map shadowOf) = some n
      rw [storeGet_storeSet_self]

theorem lookupNode_storeSetNode_ne (fs : FileSystem) (n : Inode) (j : Nat)
    (h : j ≠ n.ino) :
    (fs.storeSetNode n).lookupNode j = fs.lookupNode j := by
  cases fs with
  | base core =>
      show storeGet (storeSet core.store n.ino n) j = storeGet core.store j
      exact storeGet_storeSet_ne _ _ _ _ h
  | layer core parent =>
      show (match storeGet (storeSet core.store n.ino n) j with
            | some nn => some nn
            | none => (parent.lookupNode j).map shadowOf) =
        (match storeGet core.store j with
         | some nn => some nn
         | none => (parent.lookupNode j).map shadowOf)
      rw [storeGet_storeSet_ne _ _ _ _ h]

theorem linksView_withCore (fs : FileSystem) (c : FSCore)
    (h : c.ignoreCase = fs.core.ignoreCase) (v : Inode) :
    (fs.withCore c).linksView v = fs.linksView v := by
  cases fs with
  | base core =>
      rw [FileSystem.withCore, FileSystem.linksView, FileSystem.linksView]
  | layer core parent =>
      rw [FileSystem.core] at h
      rw [FileSystem.withCore, FileSystem.linksView, FileSystem.linksView, h]

theorem rootLinksView_withCore (fs : FileSystem) (c : FSCore)
    (h1 : c.rootLinks = fs.core.rootLinks)
    (h2 : c.ignoreCase = fs.core.ignoreCase) :
    (fs.withCore c).rootLinksView = fs.rootLinksView := by
  cases fs with
  | base core =>
      rw [FileSystem.core] at h1
      rw [FileSystem.withCore, FileSystem.rootLinksView, FileSystem.rootLinksView,
        h1]
  | layer core parent =>
      rw [FileSystem.core] at h1
      rw [FileSystem.core] at h2
      rw [FileSystem.withCore, FileSystem.rootLinksView, FileSystem.rootLinksView,
        h1, h2]

theorem getBuffer_withCore (fs : FileSystem) (c : FSCore) (node : Inode)
    (h : ∀ b, node.bufId = some b → c.bufs.getD b [] = fs.core.bufs.getD b []) :
    (fs.withCore c)._getBuffer node = fs._getBuffer node := by
  cases fs with
  | base core =>
      rw [FileSystem.core] at h
      rw [FileSystem.withCore, FileSystem._getBuffer, FileSystem._getBuffer]
      cases hb : node.bufId with
      | some b => simpa using h b hb
      | none => rfl
  | layer core parent =>
      rw [FileSystem.core] at h
      rw [FileSystem.withCore, FileSystem._getBuffer, FileSystem._getBuffer]
      cases hb : node.bufId with
      | some b => simpa using h b hb
      | none => rfl

theorem getSize_withCore (fs : FileSystem) (c : FSCore) (node : Inode)
    (h : ∀ b, node.bufId = some b → c.bufs.getD b [] = fs.core.bufs.getD b []) :
    (fs.withCore c)._getSize node = fs._getSize node := by
  cases fs with
  | base core =>
      rw [FileSystem.core] at h
      rw [FileSystem.withCore, FileSystem._getSize, FileSystem._getSize]
      cases hb : node.bufId with
      | some b => simpa using congrArg List.length (h b hb)
      | none => rfl
  | layer core parent =>
      rw [FileSystem.core] at h
      rw [FileSystem.withCore, FileSystem._getSize, FileSystem._getSize]
      cases hb : node.bufId with
      | some b => simpa using congrArg List.length (h b hb)
      | none => rfl

theorem list_getD_append_left {α : Type} (l l2 : List α) (i : Nat) (d : α)
    (h : i < l.length) : (l ++ l2).getD i d = l.getD i d := by
  induction l generalizing i with
  | nil => cases h
  | cons a t ih =>
      cases i with
      | zero => rfl
      | succ k =>
          have hk : k < t.length := by simpa using h
          simpa [List.getD_cons_succ] using ih k hk

theorem list_getD_append_len {α : Type} (l : List α) (a : α) (t : List α)
    (i : Nat) (d : α) (h : i = l.length) : (l ++ a :: t).getD i d = a := by
  subst h
  induction l with
  | nil => rfl
  | cons b u ih => simpa [List.getD_cons_succ] using ih

theorem list_set_append_left {α : Type} (l l2 : List α) (i : Nat) (a : α)
    (h : i < l.length) : (l ++ l2).set i a = l.set i a ++ l2 := by
  induction l generalizing i with
  | nil => cases h
  | cons b t ih =>
      cases i with
      | zero => rfl
      | succ k =>
          have hk : k < t.length := by simpa using h
          show b :: (t ++ l2).set k a = b :: (t.set k a ++ l2)
          exact congrArg _ (ih k hk)

theorem list_set_append_len {α : Type} (l t : List α) (a b : α) (i : Nat)
    (h : i = l.length) : (l ++ a :: t).set i b = l ++ b :: t := by
  subst h
  induction l with
  | nil => rfl
  | cons c u ih =>
      show c :: (u ++ a :: t).set u.length b = c :: (u ++ b :: t)
      exact congrArg _ ih

-- ----------------------------------------------------------------------
-- Well-formedness facts about views.
-- ----------------------------------------------------------------------

theorem wf_linksView_bound :
    ∀ {fs : FileSystem}, fs.Wf = true →
      ∀ {j : Nat} {v : Inode}, fs.lookupNode j = some v →
        ∀ e ∈ fs.linksView v, e.2 ≤ fs.core.nextIno
  | .base core, h, j, v, hl, e, he => by
      rw [FileSystem.lookupNode] at hl
      rw [FileSystem.linksView] at he
      cases hm : v.links with
      | some m =>
          rw [hm] at he
          exact ((coreWf_store_mem (wf_core h) (storeGet_mem hl)).2.2.1 m hm).2 e he
      | none => rw [hm] at he; cases he
  | .layer core parent, h, j, v, hl, e, he => by
      rw [FileSystem.lookupNode] at hl
      rw [FileSystem.linksView] at he
      cases hm : v.links with
      | some m =>
          rw [hm] at he
          dsimp only at he
          cases hg : storeGet core.store j with
          | some n =>
              rw [hg] at hl
              injection hl with hl
              subst hl
              exact ((coreWf_store_mem (wf_core h) (storeGet_mem hg)).2.2.1 m hm).2 e he
          | none =>
              rw [hg] at hl
              cases hp : parent.lookupNode j with
              | none => rw [hp] at hl; cases hl
              | some root =>
                  rw [hp] at hl
                  have hv : shadowOf root = v := by simpa using hl
                  rw [← hv, shadowOf] at hm
                  cases hm
      | none =>
          rw [hm] at he
          dsimp only at he
          cases hsr : v.shadowRoot with
          | some r =>
              rw [hsr] at he
              dsimp only at he
              cases hpr : parent.lookupNode r with
              | some pn =>
                  rw [hpr] at he
                  dsimp only at he
                  rcases mem_smapFromList he with ⟨k, hk⟩
                  have hble := wf_linksView_bound (wf_shadow h).1 hpr (k, e.2) hk
                  exact le_trans hble (wf_shadow h).2
              | none => rw [hpr] at he; dsimp only at he; cases he
          | none => rw [hsr] at he; dsimp only at he; cases he

theorem wf_rootLinksView_bound :
    ∀ {fs : FileSystem}, fs.Wf = true →
      ∀ e ∈ fs.rootLinksView, e.2 ≤ fs.core.nextIno
  | .base core, h, e, he => by
      rw [FileSystem.rootLinksView] at he
      cases hm : core.rootLinks with
      | some m =>
          rw [hm] at he
          exact (coreWf_root (wf_core h) hm).2 e he
      | none => rw [hm] at he; cases he
  | .layer core parent, h, e, he => by
      rw [FileSystem.rootLinksView] at he
      cases hm : core.rootLinks with
      | some m =>
          rw [hm] at he
          exact (coreWf_root (wf_core h) hm).2 e he
      | none =>
          rw [hm] at he
          rcases mem_smapFromList he with ⟨k, hk⟩
          have hble := wf_rootLinksView_bound (wf_shadow h).1 (k, e.2) hk
          exact le_trans hble (wf_shadow h).2

theorem wf_lookup_bufId {fs : FileSystem} (h : fs.Wf = true) {j : Nat}
    {v : Inode} (hl : fs.lookupNode j = some v) :
    ∀ b, v.bufId = some b → b < fs.core.bufs.length := by
  intro b hb
  cases fs with
  | base core =>
      rw [FileSystem.lookupNode] at hl
      exact (coreWf_store_mem (wf_core h) (storeGet_mem hl)).2.2.2 b hb
  | layer core parent =>
      rw [FileSystem.lookupNode] at hl
      cases hg : storeGet core.store j with
      | some n =>
          rw [hg] at hl
          injection hl with hl
          subst hl
          exact (coreWf_store_mem (wf_core h) (storeGet_mem hg)).2.2.2 b hb
      | none =>
          rw [hg] at hl
          cases hp : parent.lookupNode j with
          | none => rw [hp] at hl; cases hl
          | some root =>
              rw [hp] at hl
              have hv : shadowOf root = v := by simpa using hl
              rw [← hv, shadowOf] at hb
              cases hb

-- ----------------------------------------------------------------------
-- Walk result provenance and congruence.
-- ----------------------------------------------------------------------

theorem walkInner_inv (fs : FileSystem) (nf : Bool)
    (hcons : ∀ i n, fs.lookupNode i = some n → n.ino = i)
    (sp : List String → Except Err WalkResult)
    (hsp : ∀ cs w, sp cs = .ok w →
      ((w.parent = none ∧ w.links = fs.rootLinksView) ∨
        ∃ v, w.parent = some v ∧ fs.lookupNode v.ino = some v ∧
          w.links = fs.linksView v) ∧
      w.node = (smapGet fs.cmp w.links w.basename).bind fs.lookupNode) :
    ∀ (rest consumed : List String) (links : List (String × Nat))
      (parent : Option Inode),
      ((parent = none ∧ links = fs.rootLinksView) ∨
        ∃ v, parent = some v ∧ fs.lookupNode v.ino = some v ∧
          links = fs.linksView v) →
      ∀ (w : WalkResult),
      walkInner fs nf sp consumed rest links parent = .ok w →
      ((w.parent = none ∧ w.links = fs.rootLinksView) ∨
        ∃ v, w.parent = some v ∧ fs.lookupNode v.ino = some v ∧
          w.links = fs.linksView v) ∧
      w.node = (smapGet fs.cmp w.links w.basename).bind fs.lookupNode := by
  intro rest
  induction rest with
  | nil =>
      intro consumed links parent hpl w hrun
      rw [walkInner] at hrun
      cases hrun
  | cons basename rest' ih =>
      intro consumed links parent hpl w hrun
      rw [walkInner] at hrun
      by_cases hguard : rest' = [] ∧ (nf = true ∨
          ¬ isSymlink ((smapGet fs.cmp links basename).bind fs.lookupNode) = true)
      · rw [if_pos hguard] at hrun
        injection hrun with hw
        subst hw
        exact ⟨hpl, rfl⟩
      · rw [if_neg hguard] at hrun
        cases hq : (smapGet fs.cmp links basename).bind fs.lookupNode with
        | none => rw [hq] at hrun; cases hrun
        | some v =>
            rw [hq] at hrun
            dsimp only at hrun
            by_cases hsym : isSymlink (some v) = true
            · rw [if_pos hsym] at hrun
              exact hsp _ w hrun
            · rw [if_neg hsym] at hrun
              by_cases hdir : isDirectory (some v) = true
              · rw [if_pos hdir] at hrun
                have hvl : fs.lookupNode v.ino = some v := by
                  cases hsg : smapGet fs.cmp links basename with
                  | none => rw [hsg] at hq; cases hq
                  | some jj =>
                      rw [hsg] at hq
                      have hj : fs.lookupNode jj = some v := hq
                      have hvj := hcons jj v hj
                      rw [hvj]
                      exact hj
                exact ih (consumed ++ [basename]) (fs.linksView v) (some v)
                  (Or.inr ⟨v, rfl, hvl, rfl⟩) w hrun
              · rw [if_neg hdir] at hrun
                cases hrun

theorem walkFuel_inv (fs : FileSystem) (nf : Bool)
    (hcons : ∀ i n, fs.lookupNode i = some n → n.ino = i) :
    ∀ (k : Nat) (comps : List String) (w : WalkResult),
      walkFuel fs nf k comps = .ok w →
      ((w.parent = none ∧ w.links = fs.rootLinksView) ∨
        ∃ v, w.parent = some v ∧ fs.lookupNode v.ino = some v ∧
          w.links = fs.linksView v) ∧
      w.node = (smapGet fs.cmp w.links w.basename).bind fs.lookupNode := by
  intro k
  induction k with
  | zero => intro comps w hrun; rw [walkFuel] at hrun; cases hrun
  | succ k ihk =>
      intro comps w hrun
      rw [walkFuel] at hrun
      exact walkInner_inv fs nf hcons _ (fun cs w2 h2 => ihk cs w2 h2)
        comps [] fs.rootLinksView none (Or.inl ⟨rfl, rfl⟩) w hrun

theorem walkInner_congr (fs fs2 : FileSystem) (nf : Bool)
    (hic : fs2.core.ignoreCase = fs.core.ignoreCase)
    (hlk : fs2.lookupNode = fs.lookupNode)
    (hlv : ∀ v, fs2.linksView v = fs.linksView v)
    (sp sp2 : List String → Except Err WalkResult)
    (hsp : ∀ cs, sp2 cs = sp cs) :
    ∀ (rest consumed : List String) (links : List (String × Nat))
      (parent : Option Inode),
      walkInner fs2 nf sp2 consumed rest links parent =
        walkInner fs nf sp consumed rest links parent := by
  intro rest
  induction rest with
  | nil => intro consumed links parent; rw [walkInner, walkInner]
  | cons basename rest' ih =>
      intro consumed links parent
      rw [walkInner, walkInner]
      rw [cmp_congr hic, hlk]
      by_cases hguard : rest' = [] ∧ (nf = true ∨
          ¬ isSymlink ((smapGet fs.cmp links basename).bind fs.lookupNode) = true)
      · rw [if_pos hguard, if_pos hguard]
      · rw [if_neg hguard, if_neg hguard]
        cases hq : (smapGet fs.cmp links basename).bind fs.lookupNode with
        | none => rfl
        | some v =>
            dsimp only
            by_cases hsym : isSymlink (some v) = true
            · rw [if_pos hsym, if_pos hsym]
              exact hsp _
            · rw [if_neg hsym, if_neg hsym]
              by_cases hdir : isDirectory (some v) = true
              · rw [if_pos hdir, if_pos hdir]
                rw [hlv v]
                exact ih (consumed ++ [basename]) (fs.linksView v) (some v)
              · rw [if_neg hdir, if_neg hdir]

theorem walkFuel_congr (fs fs2 : FileSystem) (nf : Bool)
    (hic : fs2.core.ignoreCase = fs.core.ignoreCase)
    (hlk : fs2.lookupNode = fs.lookupNode)
    (hroot : fs2.rootLinksView = fs.rootLinksView)
    (hlv : ∀ v, fs2.linksView v = fs.linksView v) :
    ∀ (k : Nat) (comps : List String),
      walkFuel fs2 nf k comps = walkFuel fs nf k comps := by
  intro k
  induction k with
  | zero => intro comps; rw [walkFuel, walkFuel]
  | succ k ihk =>
      intro comps
      rw [walkFuel, walkFuel, hroot]
      exact walkInner_congr fs fs2 nf hic hlk hlv _ _ (fun cs => ihk cs)
        comps [] fs.rootLinksView none

theorem resolve_congr (fs fs2 : FileSystem)
    (h : fs2.core.cwd = fs.core.cwd) (p : String) :
    fs2._resolve p = fs._resolve p := by
  rw [FileSystem._resolve, FileSystem._resolve, h]

theorem linksView_links_some (fs : FileSystem) (v : Inode)
    (m : List (String × Nat)) (h : v.links = some m) : fs.linksView v = m := by
  cases fs with
  | base core => rw [FileSystem.linksView, h]
  | layer core parent => rw [FileSystem.linksView, h]

theorem walkInner_sim_insert (fs fs' : FileSystem) (nf : Bool)
    (p0 p1 nF : Inode) (ni : Nat) (basename0 : String)
    (hcons : ∀ i n, fs.lookupNode i = some n → n.ino = i)
    (hic : fs'.core.ignoreCase = fs.core.ignoreCase)
    (hlv : ∀ v, fs'.linksView v = fs.linksView v)
    (hclaw : CmpLaws fs.cmp)
    (hlp0 : fs.lookupNode p0.ino = some p0)
    (hlp1 : fs'.lookupNode p0.ino = some p1)
    (hlnF : fs'.lookupNode ni = some nF)
    (hlo : ∀ i, i ≠ p0.ino → i ≠ ni → fs'.lookupNode i = fs.lookupNode i)
    (hmode : p1.mode = p0.mode)
    (hsyml : p1.symlink = p0.symlink)
    (hp1links : p1.links = some (smapSet fs.cmp (fs.linksView p0) basename0 ni))
    (hnFsym : isSymlink (some nF) = false)
    (hn0 : (smapGet fs.cmp (fs.linksView p0) basename0).bind fs.lookupNode = none)
    (hbound : ∀ j v, fs.lookupNode j = some v → ∀ e ∈ fs.linksView v, e.2 ≠ ni)
    (sp sp' : List String → Except Err WalkResult)
    (hsp : ∀ cs w, sp cs = .ok w →
      ∃ w', sp' cs = .ok w' ∧
        w'.realpath = w.realpath ∧ w'.basename = w.basename ∧
        w'.links = (if w.parent = some p0
          then smapSet fs.cmp w.links basename0 ni else w.links) ∧
        w'.node = (if w.parent = some p0 ∧ fs.cmp w.basename basename0 = Ordering.eq
          then some nF
          else if w.node = some p0 then some p1 else w.node) ∧
        w'.parent = (if w.parent = some p0 then some p1 else w.parent)) :
    ∀ (rest consumed : List String) (links : List (String × Nat))
      (parent : Option Inode),
      (∀ e ∈ links, e.2 ≠ ni) →
      (parent = some p0 → links = fs.linksView p0) →
      ∀ (w : WalkResult),
      walkInner fs nf sp consumed rest links parent = .ok w →
      ∃ w', walkInner fs' nf sp' consumed rest
          (if parent = some p0 then smapSet fs.cmp links basename0 ni else links)
          (if parent = some p0 then some p1 else parent) = .ok w' ∧
        w'.realpath = w.realpath ∧ w'.basename = w.basename ∧
        w'.links = (if w.parent = some p0
          then smapSet fs.cmp w.links basename0 ni else w.links) ∧
        w'.node = (if w.parent = some p0 ∧ fs.cmp w.basename basename0 = Ordering.eq
          then some nF
          else if w.node = some p0 then some p1 else w.node) ∧
        w'.parent = (if w.parent = some p0 then some p1 else w.parent) := by
  intro rest
  induction rest with
  | nil =>
      intro consumed links parent hlb hpl w hrun
      rw [walkInner] at hrun
      cases hrun
  | cons basename rest' ih =>
      intro consumed links parent hlb hpl w hrun
      rw [walkInner] at hrun
      rw [walkInner]
      have hcommon : (smapGet fs.cmp links basename).bind fs'.lookupNode =
          (if ((smapGet fs.cmp links basename).bind fs.lookupNode) = some p0
           then some p1
           else (smapGet fs.cmp links basename).bind fs.lookupNode) := by
        cases hj : smapGet fs.cmp links basename with
        | none => simp
        | some j =>
            change fs'.lookupNode j =
              if fs.lookupNode j = some p0 then some p1 else fs.lookupNode j
            have hjni : j ≠ ni := by
              rcases smapGet_mem hj with ⟨k, hk⟩
              exact hlb (k, j) hk
            by_cases hjp : j = p0.ino
            · subst hjp
              rw [hlp1, hlp0, if_pos rfl]
            · rw [hlo j hjp hjni]
              cases hv : fs.lookupNode j with
              | none => simp
              | some v =>
                  have hne : ¬ (some v = some p0) := by
                    intro hvv
                    injection hvv with hvv
                    subst hvv
                    exact hjp (hcons j v hv).symm
                  rw [if_neg hne]
      have hnode : (smapGet fs'.cmp
            (if parent = some p0 then smapSet fs.cmp links basename0 ni else links)
            basename).bind fs'.lookupNode =
          (if parent = some p0 ∧ fs.cmp basename basename0 = Ordering.eq
           then some nF
           else if ((smapGet fs.cmp links basename).bind fs.lookupNode) = some p0
           then some p1
           else (smapGet fs.cmp links basename).bind fs.lookupNode) := by
        rw [cmp_congr hic]
        by_cases hpp : parent = some p0
        · rw [if_pos hpp]
          by_cases hbb : fs.cmp basename basename0 = Ordering.eq
          · rw [smapGet_smapSet hclaw, if_pos hbb,
              if_pos (show parent = some p0 ∧ _ from ⟨hpp, hbb⟩)]
            exact hlnF
          · rw [smapGet_smapSet hclaw, if_neg hbb, if_neg (fun hc => hbb hc.2)]
            exact hcommon
        · rw [if_neg hpp, if_neg (fun hc => hpp hc.1)]
          exact hcommon
      set fsnode := (smapGet fs.cmp links basename).bind fs.lookupNode with hfs
      have hsymEq : isSymlink
          ((if parent = some p0 ∧ fs.cmp basename basename0 = Ordering.eq
            then some nF
            else if fsnode = some p0 then some p1 else fsnode)) =
          isSymlink fsnode := by
        by_cases hq : parent = some p0 ∧ fs.cmp basename basename0 = Ordering.eq
        · rw [if_pos hq]
          have hfn : fsnode = none := by
            rw [hfs, hpl hq.1, smapGet_congr hclaw hq.2 (fs.linksView p0)]
            exact hn0
          rw [hfn, hnFsym]
          rfl
        · rw [if_neg hq]
          by_cases hq2 : fsnode = some p0
          · rw [if_pos hq2, hq2, isSymlink, isSymlink, hmode]
          · rw [if_neg hq2]
      by_cases hguard : rest' = [] ∧ (nf = true ∨ ¬ isSymlink fsnode = true)
      · rw [if_pos hguard] at hrun
        injection hrun with hw
        subst hw
        have hguard2 : rest' = [] ∧ (nf = true ∨
            ¬ isSymlink ((smapGet fs'.cmp
              (if parent = some p0 then smapSet fs.cmp links basename0 ni
               else links) basename).bind fs'.lookupNode) = true) := by
          refine ⟨hguard.1, ?_⟩
          rw [hnode, hsymEq]
          exact hguard.2
        refine ⟨{ realpath := vpath.format (consumed ++ [basename]),
                  basename := basename,
                  parent := (if parent = some p0 then some p1 else parent),
                  links := (if parent = some p0
                    then smapSet fs.cmp links basename0 ni else links),
                  node := (smapGet fs'.cmp
                    (if parent = some p0 then smapSet fs.cmp links basename0 ni
                     else links) basename).bind fs'.lookupNode },
                by rw [if_pos hguard2], rfl, rfl, rfl, ?_, rfl⟩
        exact hnode
      · rw [if_neg hguard] at hrun
        have hguard' : ¬ (rest' = [] ∧ (nf = true ∨
            ¬ isSymlink ((smapGet fs'.cmp
              (if parent = some p0 then smapSet fs.cmp links basename0 ni
               else links) basename).bind fs'.lookupNode) = true)) := by
          rw [hnode, hsymEq]
          exact hguard
        rw [if_neg hguard']
        cases hq : fsnode with
        | none => rw [hq] at hrun; cases hrun
        | some v =>
            rw [hq] at hrun
            dsimp only at hrun
            have hnotpb : ¬ (parent = some p0 ∧
                fs.cmp basename basename0 = Ordering.eq) := by
              intro hc
              have hfn : fsnode = none := by
                rw [hfs, hpl hc.1, smapGet_congr hclaw hc.2 (fs.linksView p0)]
                exact hn0
              rw [hq] at hfn
              cases hfn
            have hnode' : (smapGet fs'.cmp
                (if parent = some p0 then smapSet fs.cmp links basename0 ni
                 else links) basename).bind fs'.lookupNode =
                (if v = p0 then some p1 else some v) := by
              rw [hnode, if_neg hnotpb, hq]
              by_cases hvp : v = p0
              · rw [if_pos (show some v = some p0 by rw [hvp]), if_pos hvp]
              · rw [if_neg (fun hc : some v = some p0 =>
                    hvp (Option.some.inj hc)), if_neg hvp]
            by_cases hvp : v = p0
            · subst hvp
              rw [hnode', if_pos rfl]
              dsimp only
              by_cases hsym : isSymlink (some v) = true
              · rw [if_pos hsym] at hrun
                have hsym1 : isSymlink (some p1) = true := by
                  rw [isSymlink] at hsym ⊢
                  rw [hmode]
                  exact hsym
                rw [if_pos hsym1, hsyml]
                exact hsp _ w hrun
              · rw [if_neg hsym] at hrun
                have hsym1 : ¬ isSymlink (some p1) = true := by
                  rw [isSymlink] at hsym ⊢
                  rw [hmode]
                  exact hsym
                rw [if_neg hsym1]
                by_cases hdir : isDirectory (some v) = true
                · rw [if_pos hdir] at hrun
                  have hdir1 : isDirectory (some p1) = true := by
                    rw [isDirectory] at hdir ⊢
                    rw [hmode]
                    exact hdir
                  rw [if_pos hdir1]
                  rw [linksView_links_some fs' p1 _ hp1links]
                  have hrec := ih (consumed ++ [basename]) (fs.linksView v)
                    (some v) (fun e he => hbound v.ino v hlp0 e he)
                    (fun _ => rfl) w hrun
                  rw [if_pos rfl, if_pos rfl] at hrec
                  exact hrec
                · rw [if_neg hdir] at hrun
                  have hdir1 : ¬ isDirectory (some p1) = true := by
                    rw [isDirectory] at hdir ⊢
                    rw [hmode]
                    exact hdir
                  rw [if_neg hdir1]
                  cases hrun
            · have hne : ¬ (some v = some p0) :=
                fun hc => hvp (Option.some.inj hc)
              rw [hnode', if_neg hvp]
              dsimp only
              by_cases hsym : isSymlink (some v) = true
              · rw [if_pos hsym] at hrun
                rw [if_pos hsym]
                exact hsp _ w hrun
              · rw [if_neg hsym] at hrun
                rw [if_neg hsym]
                by_cases hdir : isDirectory (some v) = true
                · rw [if_pos hdir] at hrun
                  rw [if_pos hdir]
                  rw [hlv v]
                  have hvl : fs.lookupNode v.ino = some v := by
                    rw [hfs] at hq
                    cases hsg : smapGet fs.cmp links basename with
                    | none => rw [hsg] at hq; cases hq
                    | some jj =>
                        rw [hsg] at hq
                        have hjv : fs.lookupNode jj = some v := hq
                        have hji := hcons jj v hjv
                        rw [hji]
                        exact hjv
                  have hrec := ih (consumed ++ [basename]) (fs.linksView v)
                    (some v) (fun e he => hbound v.ino v hvl e he)
                    (fun hc => absurd (Option.some.inj hc) hvp) w hrun
                  rw [if_neg hne, if_neg hne] at hrec
                  exact hrec
                · rw [if_neg hdir] at hrun
                  rw [if_neg hdir]
                  cases hrun

theorem walkFuel_sim_insert (fs fs' : FileSystem) (nf : Bool)
    (p0 p1 nF : Inode) (ni : Nat) (basename0 : String)
    (hcons : ∀ i n, fs.lookupNode i = some n → n.ino = i)
    (hic : fs'.core.ignoreCase = fs.core.ignoreCase)
    (hroot : fs'.rootLinksView = fs.rootLinksView)
    (hlv : ∀ v, fs'.linksView v = fs.linksView v)
    (hclaw : CmpLaws fs.cmp)
    (hlp0 : fs.lookupNode p0.ino = some p0)
    (hlp1 : fs'.lookupNode p0.ino = some p1)
    (hlnF : fs'.lookupNode ni = some nF)
    (hlo : ∀ i, i ≠ p0.ino → i ≠ ni → fs'.lookupNode i = fs.lookupNode i)
    (hmode : p1.mode = p0.mode)
    (hsyml : p1.symlink = p0.symlink)
    (hp1links : p1.links = some (smapSet fs.cmp (fs.linksView p0) basename0 ni))
    (hnFsym : isSymlink (some nF) = false)
    (hn0 : (smapGet fs.cmp (fs.linksView p0) basename0).bind fs.lookupNode = none)
    (hbound : ∀ j v, fs.lookupNode j = some v → ∀ e ∈ fs.linksView v, e.2 ≠ ni)
    (hrootb : ∀ e ∈ fs.rootLinksView, e.2 ≠ ni) :
    ∀ (k : Nat) (comps : List String) (w : WalkResult),
      walkFuel fs nf k comps = .ok w →
      ∃ w', walkFuel fs' nf k comps = .ok w' ∧
        w'.realpath = w.realpath ∧ w'.basename = w.basename ∧
        w'.links = (if w.parent = some p0
          then smapSet fs.cmp w.links basename0 ni else w.links) ∧
        w'.node = (if w.parent = some p0 ∧ fs.cmp w.basename basename0 = Ordering.eq
          then some nF
          else if w.node = some p0 then some p1 else w.node) ∧
        w'.parent = (if w.parent = some p0 then some p1 else w.parent) := by
  intro k
  induction k with
  | zero =>
      intro comps w hrun
      rw [walkFuel] at hrun
      cases hrun
  | succ k ihk =>
      intro comps w hrun
      rw [walkFuel] at hrun
      rw [walkFuel, hroot]
      have hnp : ¬ ((none : Option Inode) = some p0) := fun hc => by cases hc
      have h := walkInner_sim_insert fs fs' nf p0 p1 nF ni basename0 hcons hic
        hlv hclaw hlp0 hlp1 hlnF hlo hmode hsyml hp1links hnFsym hn0 hbound
        _ _ (fun cs w2 h2 => ihk cs w2 h2)
        comps [] fs.rootLinksView none hrootb (fun hc => absurd hc hnp) w hrun
      rw [if_neg hnp, if_neg hnp] at h
      exact h

theorem core_storeSetNode (fs : FileSystem) (n : Inode) :
    (fs.storeSetNode n).core =
      { fs.core with store := storeSet fs.core.store n.ino n } := by
  rw [FileSystem.storeSetNode, core_withCore]

theorem core_pushBuf (fs : FileSystem) (d : List Nat) :
    (fs.pushBuf d).core = { fs.core with bufs := fs.core.bufs ++ [d] } := by
  rw [FileSystem.pushBuf, core_withCore]

theorem lookupNode_pushBuf (fs : FileSystem) (d : List Nat) (i : Nat) :
    (fs.pushBuf d).lookupNode i = fs.lookupNode i := by
  rw [FileSystem.pushBuf]
  apply lookupNode_withCore
  rfl

theorem linksView_storeSetNode (fs : FileSystem) (n : Inode) (v : Inode) :
    (fs.storeSetNode n).linksView v = fs.linksView v := by
  rw [FileSystem.storeSetNode]
  apply linksView_withCore
  rfl

theorem linksView_pushBuf (fs : FileSystem) (d : List Nat) (v : Inode) :
    (fs.pushBuf d).linksView v = fs.linksView v := by
  rw [FileSystem.pushBuf]
  apply linksView_withCore
  rfl

theorem rootLinksView_storeSetNode (fs : FileSystem) (n : Inode) :
    (fs.storeSetNode n).rootLinksView = fs.rootLinksView := by
  rw [FileSystem.storeSetNode]
  apply rootLinksView_withCore
  · rfl
  · rfl

theorem rootLinksView_pushBuf (fs : FileSystem) (d : List Nat) :
    (fs.pushBuf d).rootLinksView = fs.rootLinksView := by
  rw [FileSystem.pushBuf]
  apply rootLinksView_withCore
  · rfl
  · rfl

theorem getBuffer_bufId (fs : FileSystem) (node : Inode) (i : Nat)
    (h : node.bufId = some i) : fs._getBuffer node = fs.core.bufs.getD i [] := by
  cases fs with
  | base core => rw [FileSystem._getBuffer, h]; rfl
  | layer core parent => rw [FileSystem._getBuffer, h]; rfl

theorem getSize_bufId (fs : FileSystem) (node : Inode) (i : Nat)
    (h : node.bufId = some i) :
    fs._getSize node = (fs.core.bufs.getD i []).length := by
  cases fs with
  | base core => rw [FileSystem._getSize, h]; rfl
  | layer core parent => rw [FileSystem._getSize, h]; rfl

theorem ok_map {α β : Type} (a : α) (f : α → β) :
    (Except.ok a : Except Err α).map f = .ok (f a) := rfl

theorem bufsGet_pushBuf_len (fs : FileSystem) (d : List Nat) :
    bufsGet (fs.pushBuf d) fs.core.bufs.length = d := by
  rw [bufsGet, core_pushBuf]
  exact list_getD_append_len fs.core.bufs d [] _ _ rfl

theorem core_setBuf (fs : FileSystem) (b : Buffer) (d : List Nat) :
    (setBuf fs b d).core = { fs.core with bufs := fs.core.bufs.set b.id d } := by
  rw [setBuf, core_withCore]

theorem lookupNode_setBuf (fs : FileSystem) (b : Buffer) (d : List Nat)
    (i : Nat) : (setBuf fs b d).lookupNode i = fs.lookupNode i := by
  rw [setBuf]
  apply lookupNode_withCore
  rfl

theorem linksView_setBuf (fs : FileSystem) (b : Buffer) (d : List Nat)
    (v : Inode) : (setBuf fs b d).linksView v = fs.linksView v := by
  rw [setBuf]
  apply linksView_withCore
  rfl

theorem rootLinksView_setBuf (fs : FileSystem) (b : Buffer) (d : List Nat) :
    (setBuf fs b d).rootLinksView = fs.rootLinksView := by
  rw [setBuf]
  apply rootLinksView_withCore
  · rfl
  · rfl

theorem shadowFS_setBuf (fs : FileSystem) (b : Buffer) (d : List Nat) :
    (setBuf fs b d).shadowFS = fs.shadowFS := by
  rw [setBuf, shadowFS_withCore]

theorem shadowFS_storeSetNode (fs : FileSystem) (n : Inode) :
    (fs.storeSetNode n).shadowFS = fs.shadowFS := by
  rw [FileSystem.storeSetNode, shadowFS_withCore]

theorem getBuffer_congr_slot (fs fs2 : FileSystem) (node : Inode)
    (hsh : fs2.shadowFS = fs.shadowFS)
    (hb : ∀ b, node.bufId = some b →
      fs2.core.bufs.getD b [] = fs.core.bufs.getD b []) :
    fs2._getBuffer node = fs._getBuffer node := by
  cases fs2 with
  | base c2 =>
      cases fs with
      | base c1 =>
          rw [FileSystem._getBuffer, FileSystem._getBuffer]
          cases hbid : node.bufId with
          | some b => simpa using hb b hbid
          | none => rfl
      | layer c1 p1 =>
          rw [FileSystem.shadowFS, FileSystem.shadowFS] at hsh
          cases hsh
  | layer c2 p2 =>
      cases fs with
      | base c1 =>
          rw [FileSystem.shadowFS, FileSystem.shadowFS] at hsh
          cases hsh
      | layer c1 p1 =>
          have hp : p2 = p1 := by
            rw [FileSystem.shadowFS, FileSystem.shadowFS] at hsh
            exact Option.some.inj hsh
          subst hp
          rw [FileSystem._getBuffer, FileSystem._getBuffer]
          cases hbid : node.bufId with
          | some b => simpa using hb b hbid
          | none => rfl

theorem getBuffer_fields_congr (g : FileSystem) (n n2 : Inode)
    (hb : n2.bufId = n.bufId) (hsrc : n2.source = n.source)
    (hrv : n2.resolver = n.resolver) (hshr : n2.shadowRoot = n.shadowRoot) :
    g._getBuffer n2 = g._getBuffer n := by
  cases g with
  | base core =>
      rw [FileSystem._getBuffer, FileSystem._getBuffer, hb, hsrc, hrv]
  | layer core parent =>
      rw [FileSystem._getBuffer, FileSystem._getBuffer, hb, hsrc, hrv, hshr]

theorem walk_congr (fs fs2 : FileSystem)
    (hic : fs2.core.ignoreCase = fs.core.ignoreCase)
    (hlk : fs2.lookupNode = fs.lookupNode)
    (hroot : fs2.rootLinksView = fs.rootLinksView)
    (hlv : ∀ v, fs2.linksView v = fs.linksView v)
    (path : String) (nf : Bool) :
    fs2._walk path nf = fs._walk path nf := by
  rw [FileSystem._walk, FileSystem._walk]
  exact walkFuel_congr fs fs2 nf hic hlk hroot hlv 40 (vpath.parse path)

theorem readContents_val (fs : FileSystem) (p pr : String) (w : WalkResult)
    (node : Inode)
    (hres : fs._resolve p = .ok pr)
    (hwalk : fs._walk pr false = .ok w)
    (hnd : w.node = some node)
    (hdir : ¬ (isDirectory (some node) = true))
    (hfile : isFile (some node) = true) :
    fs.readContents p = .ok (fs._getBuffer node) := by
  rw [FileSystem.readContents, FileSystem.readFileSync, hres, ok_bind, hwalk,
    ok_bind, hnd]
  dsimp only
  rw [if_neg hdir, if_neg (not_not_intro hfile)]
  cases hbid : node.bufId with
  | some i =>
      dsimp only
      rw [ok_map, bufsGet, getBuffer_bufId fs node i hbid]
  | none =>
      dsimp only
      rw [ok_map]
      show Except.ok (bufsGet (fs.pushBuf (fs._getBuffer node))
        fs.core.bufs.length) = _
      rw [bufsGet_pushBuf_len]

theorem writeFileSync_read_back (fs fs' : FileSystem) (p : String) (b : Buffer)
    (hwf : fs.Wf = true)
    (hw : fs.writeFileSync p b = .ok fs') :
    ∃ pr w2 nF,
      fs'._resolve p = .ok pr ∧
      fs'._walk pr false = .ok w2 ∧
      w2.node = some nF ∧
      isDirectory (some nF) = false ∧
      isFile (some nF) = true ∧
      nF.bufId = some b.id ∧
      fs'.core.bufs = fs.core.bufs ∧
      fs'.core.ignoreCase = fs.core.ignoreCase ∧
      (∀ (q prq : String) (wq : WalkResult) (nq : Inode),
        fs._resolve q = .ok prq → fs._walk prq false = .ok wq →
        wq.node = some nq →
        (∀ (prp : String) (wp : WalkResult), fs._resolve p = .ok prp →
          fs._walk prp false = .ok wp → wp.node ≠ some nq) →
        ¬ (isDirectory (some nq) = true) → isFile (some nq) = true →
        fs'.readContents q = .ok (fs._getBuffer nq)) := by
  have hcons : ∀ i n, fs.lookupNode i = some n → n.ino = i :=
    fun i n h => wf_lookup_ino hwf h
  rw [FileSystem.writeFileSync] at hw
  by_cases hro : fs.isReadonly = true
  · rw [if_pos hro] at hw
    cases hw
  · rw [if_neg hro] at hw
    cases hres : fs._resolve p with
    | error e => rw [hres, error_bind] at hw; cases hw
    | ok pr =>
        rw [hres, ok_bind] at hw
        cases hwalk : fs._walk pr false with
        | error e => rw [hwalk, error_bind] at hw; cases hw
        | ok w =>
            rw [hwalk, ok_bind] at hw
            cases hpar : w.parent with
            | none => rw [hpar] at hw; cases hw
            | some parent =>
                rw [hpar] at hw
                dsimp only at hw
                have hinv := walkFuel_inv fs false hcons 40 (vpath.parse pr) w
                  (by rw [FileSystem._walk] at hwalk; exact hwalk)
                have hplinks : fs.lookupNode parent.ino = some parent ∧
                    w.links = fs.linksView parent := by
                  rcases hinv.1 with ⟨hn, _⟩ | ⟨v, hv, hl, hlk⟩
                  · rw [hpar] at hn; cases hn
                  · rw [hpar] at hv
                    injection hv with hv
                    subst hv
                    exact ⟨hl, hlk⟩
                have hnodeq := hinv.2
                cases hnode : w.node with
                | some n =>
                    rw [hnode] at hw
                    dsimp only at hw
                    have hln : fs.lookupNode n.ino = some n := by
                      rw [hnode, hplinks.2] at hnodeq
                      cases hsg : smapGet fs.cmp (fs.linksView parent)
                          w.basename with
                      | none => rw [hsg] at hnodeq; cases hnodeq
                      | some jj =>
                          rw [hsg] at hnodeq
                          have hjv : fs.lookupNode jj = some n := hnodeq.symm
                          have hji := hcons jj n hjv
                          rw [hji]
                          exact hjv
                    rw [hln] at hw
                    simp only [Option.getD] at hw
                    by_cases hdir : isDirectory (some n) = true
                    · rw [if_pos hdir] at hw
                      cases hw
                    · rw [if_neg hdir] at hw
                      by_cases hfile : isFile (some n) = true
                      · rw [if_neg (not_not_intro hfile)] at hw
                        injection hw with hfs'
                        subst hfs'
                        set nFin : Inode := { n with bufId := some b.id, size := some (bufsGet fs b.id).length, mtimeMs := fs.timeNow, ctimeMs := fs.timeNow } with hnFin
                        set F := fs.storeSetNode nFin with hF
                        have hic1 : F.core.ignoreCase = fs.core.ignoreCase := by
                          rw [hF]
                          simp [core_storeSetNode]
                        have hroot1 : F.rootLinksView = fs.rootLinksView := by
                          rw [hF, rootLinksView_storeSetNode]
                        have hlv1 : ∀ v, F.linksView v = fs.linksView v := by
                          intro v
                          rw [hF, linksView_storeSetNode]
                        have hl1 : F.lookupNode n.ino = some nFin := by
                          rw [hF]
                          exact lookupNode_storeSetNode_self fs nFin
                        have hlo1 : ∀ i, i ≠ n.ino →
                            F.lookupNode i = fs.lookupNode i := by
                          intro i hi
                          rw [hF, lookupNode_storeSetNode_ne fs nFin i hi]
                        have hcwd1 : F.core.cwd = fs.core.cwd := by
                          rw [hF]
                          simp [core_storeSetNode]
                        have hshF : F.shadowFS = fs.shadowFS := by
                          rw [hF, shadowFS_storeSetNode]
                        have hbufsF : F.core.bufs = fs.core.bufs := by
                          rw [hF]
                          simp [core_storeSetNode]
                        obtain ⟨w2, hw2, hrp2, hbn2, hlk2, hnd2, hp2⟩ :=
                          walkFuel_sim_update fs F false n nFin hcons hic1
                            hroot1 hlv1 hln hl1 hlo1 rfl rfl rfl rfl
                            40 (vpath.parse pr) w
                            (by rw [FileSystem._walk] at hwalk; exact hwalk)
                        refine ⟨pr, w2, nFin, ?_, ?_, ?_, ?_, ?_, ?_, hbufsF,
                          hic1, ?_⟩
                        · rw [resolve_congr fs F hcwd1 p, hres]
                        · rw [FileSystem._walk]
                          exact hw2
                        · rw [hnd2, hnode, if_pos rfl]
                        · have hdd : isDirectory (some nFin) =
                              isDirectory (some n) := rfl
                          rw [hdd]
                          simpa using hdir
                        · have hff : isFile (some nFin) = isFile (some n) := rfl
                          rw [hff]
                          exact hfile
                        · rfl
                        · intro q prq wq nq hresq hwalkq hnq hdist hdirq hfileq
                          have hvne : ¬ (some nq = some n) := fun hcontra =>
                            (hdist pr w rfl hwalk) (hnode.trans hcontra.symm)
                          obtain ⟨w2q, hw2q, _, _, _, hnd2q, _⟩ :=
                            walkFuel_sim_update fs F false n nFin hcons hic1
                              hroot1 hlv1 hln hl1 hlo1 rfl rfl rfl rfl
                              40 (vpath.parse prq) wq
                              (by rw [FileSystem._walk] at hwalkq
                                  exact hwalkq)
                          have hndq : w2q.node = some nq := by
                            rw [hnd2q, hnq, if_neg hvne]
                          rw [readContents_val F q prq w2q nq
                            (by rw [resolve_congr fs F hcwd1 q, hresq])
                            (by rw [FileSystem._walk]; exact hw2q) hndq hdirq
                            hfileq]
                          rw [getBuffer_congr_slot fs F nq hshF
                            (fun bb hbb => by rw [hbufsF])]
                      · rw [if_pos hfile] at hw
                        cases hw
                | none =>
                    rw [hnode] at hw
                    dsimp only at hw
                    rw [FileSystem._mknod] at hw
                    dsimp only at hw
                    rw [FileSystem._addLink] at hw
                    dsimp only at hw
                    have hple : parent.ino ≤ fs.core.nextIno :=
                      wf_lookup_le hwf hplinks.1
                    have hpne : ¬ (parent.ino = fs.core.nextIno + 1) := by omega
                    rw [if_neg hpne] at hw
                    set fsA := fs.withCore { ignoreCase := fs.core.ignoreCase, cwd := fs.core.cwd, timeSrc := fs.core.timeSrc, readonly := fs.core.readonly, rootLinks := fs.core.rootLinks, store := fs.core.store, bufs := fs.core.bufs, nextIno := fs.core.nextIno + 1, nextDev := fs.core.nextDev, dirStack := fs.core.dirStack } with hfsA
                    set p1n : Inode := { parent with mtimeMs := fs.timeNow, links := some (smapSet fsA.cmp w.links w.basename (fs.core.nextIno + 1)) } with hp1n
                    set nNew1 : Inode := { dev := parent.dev, ino := fs.core.nextIno + 1, mode := 438 &&& 4095 &&& 4077 ||| S_IFREG &&& S_IFMT, atimeMs := fs.timeNow, mtimeMs := fs.timeNow, ctimeMs := fs.timeNow, birthtimeMs := fs.timeNow, nlink := 0 + 1, size := none, bufId := none, source := none, resolver := none, links := none, symlink := none, shadowRoot := none } with hnNew1
                    set fs1 := (fsA.storeSetNode p1n).storeSetNode nNew1 with hfs1
                    have hlk1 : fs1.lookupNode (fs.core.nextIno + 1) =
                        some nNew1 := by
                      rw [hfs1]
                      exact lookupNode_storeSetNode_self (fsA.storeSetNode p1n)
                        nNew1
                    rw [hlk1] at hw
                    simp only [Option.getD] at hw
                    have hdirT : ¬ (isDirectory (some nNew1) = true) := by
                      show ¬ (decide ((438 &&& 4095 &&& 4077 ||| S_IFREG &&& S_IFMT) &&& S_IFMT = S_IFDIR) = true)
                      decide
                    have hfileT : isFile (some nNew1) = true := by
                      show decide ((438 &&& 4095 &&& 4077 ||| S_IFREG &&& S_IFMT) &&& S_IFMT = S_IFREG) = true
                      decide
                    rw [if_neg hdirT, if_neg (not_not_intro hfileT)] at hw
                    injection hw with hfs'
                    subst hfs'
                    set nFin2 : Inode := { nNew1 with bufId := some b.id, size := some (bufsGet fs1 b.id).length, mtimeMs := fs.timeNow, ctimeMs := fs.timeNow } with hnFin2
                    set F2 := fs1.storeSetNode nFin2 with hF2
                    have hbufs1 : fs1.core.bufs = fs.core.bufs := by
                      rw [hfs1, hfsA]
                      simp [core_storeSetNode, core_withCore]
                    have hcmpA : fsA.cmp = fs.cmp := by
                      rw [hfsA]
                      apply cmp_congr
                      rw [core_withCore]
                    have hicX : F2.core.ignoreCase = fs.core.ignoreCase := by
                      rw [hF2, hfs1, hfsA]
                      simp [core_storeSetNode, core_withCore]
                    have hcwdX : F2.core.cwd = fs.core.cwd := by
                      rw [hF2, hfs1, hfsA]
                      simp [core_storeSetNode, core_withCore]
                    have hrootX : F2.rootLinksView = fs.rootLinksView := by
                      rw [hF2, rootLinksView_storeSetNode,
                        hfs1, rootLinksView_storeSetNode,
                        rootLinksView_storeSetNode, hfsA]
                      apply rootLinksView_withCore
                      · rfl
                      · rfl
                    have hlvX : ∀ v, F2.linksView v = fs.linksView v := by
                      intro v
                      rw [hF2, linksView_storeSetNode,
                        hfs1, linksView_storeSetNode, linksView_storeSetNode,
                        hfsA]
                      apply linksView_withCore
                      rfl
                    have hpne2 : parent.ino ≠ fs.core.nextIno + 1 := by omega
                    have hlp1X : F2.lookupNode parent.ino = some p1n := by
                      rw [hF2, lookupNode_storeSetNode_ne fs1 nFin2 parent.ino
                          hpne2, hfs1,
                        lookupNode_storeSetNode_ne (fsA.storeSetNode p1n) nNew1
                          parent.ino hpne2]
                      exact lookupNode_storeSetNode_self fsA p1n
                    have hlnFX : F2.lookupNode (fs.core.nextIno + 1) =
                        some nFin2 := by
                      rw [hF2]
                      exact lookupNode_storeSetNode_self fs1 nFin2
                    have hloX : ∀ i, i ≠ parent.ino → i ≠ fs.core.nextIno + 1 →
                        F2.lookupNode i = fs.lookupNode i := by
                      intro i h1 h2
                      rw [hF2, lookupNode_storeSetNode_ne fs1 nFin2 i h2, hfs1,
                        lookupNode_storeSetNode_ne (fsA.storeSetNode p1n) nNew1
                          i h2,
                        lookupNode_storeSetNode_ne fsA p1n i h1, hfsA]
                      apply lookupNode_withCore
                      rfl
                    have hp1linksX : p1n.links = some (smapSet fs.cmp
                        (fs.linksView parent) w.basename
                        (fs.core.nextIno + 1)) := by
                      show some (smapSet fsA.cmp w.links w.basename
                        (fs.core.nextIno + 1)) = _
                      rw [hcmpA, hplinks.2]
                    have hnFsymX : isSymlink (some nFin2) = false := by
                      show decide ((438 &&& 4095 &&& 4077 ||| S_IFREG &&& S_IFMT) &&& S_IFMT = S_IFLNK) = false
                      decide
                    have hn0X : (smapGet fs.cmp (fs.linksView parent)
                        w.basename).bind fs.lookupNode = none := by
                      rw [← hplinks.2, ← hnodeq]
                      exact hnode
                    have hboundX : ∀ j v, fs.lookupNode j = some v →
                        ∀ e ∈ fs.linksView v, e.2 ≠ fs.core.nextIno + 1 := by
                      intro j v hjv e he
                      have := wf_linksView_bound hwf hjv e he
                      omega
                    have hrootbX : ∀ e ∈ fs.rootLinksView,
                        e.2 ≠ fs.core.nextIno + 1 := by
                      intro e he
                      have := wf_rootLinksView_bound hwf e he
                      omega
                    have hclawX : CmpLaws fs.cmp := cmpLaws_cmpOf fs.core.ignoreCase
                    have hshF2 : F2.shadowFS = fs.shadowFS := by
                      rw [hF2, shadowFS_storeSetNode, hfs1,
                        shadowFS_storeSetNode, shadowFS_storeSetNode, hfsA,
                        shadowFS_withCore]
                    have hbufsX : F2.core.bufs = fs.core.bufs := by
                      rw [hF2]
                      simp [core_storeSetNode, hbufs1]
                    obtain ⟨w2, hw2, hrp2, hbn2, hlk2, hnd2, hp2⟩ :=
                      walkFuel_sim_insert fs F2 false parent p1n nFin2
                        (fs.core.nextIno + 1) w.basename hcons hicX hrootX hlvX
                        hclawX hplinks.1 hlp1X hlnFX hloX rfl rfl hp1linksX
                        hnFsymX hn0X hboundX hrootbX 40 (vpath.parse pr) w
                        (by rw [FileSystem._walk] at hwalk; exact hwalk)
                    have hnd : w2.node = some nFin2 := by
                      rw [hnd2, if_pos ⟨hpar, hclawX.refl w.basename⟩]
                    refine ⟨pr, w2, nFin2, ?_, ?_, hnd, ?_, ?_, ?_, hbufsX,
                      hicX, ?_⟩
                    · rw [resolve_congr fs F2 hcwdX p, hres]
                    · rw [FileSystem._walk]
                      exact hw2
                    · show decide ((438 &&& 4095 &&& 4077 ||| S_IFREG &&& S_IFMT) &&& S_IFMT = S_IFDIR) = false
                      decide
                    · show decide ((438 &&& 4095 &&& 4077 ||| S_IFREG &&& S_IFMT) &&& S_IFMT = S_IFREG) = true
                      decide
                    · rfl
                    · intro q prq wq nq hresq hwalkq hnq hdist hdirq hfileq
                      obtain ⟨w2q, hw2q, _, _, _, hnd2q, _⟩ :=
                        walkFuel_sim_insert fs F2 false parent p1n nFin2
                          (fs.core.nextIno + 1) w.basename hcons hicX hrootX
                          hlvX hclawX hplinks.1 hlp1X hlnFX hloX rfl rfl
                          hp1linksX hnFsymX hn0X hboundX hrootbX 40
                          (vpath.parse prq) wq
                          (by rw [FileSystem._walk] at hwalkq; exact hwalkq)
                      have hinvq := walkFuel_inv fs false hcons 40
                        (vpath.parse prq) wq
                        (by rw [FileSystem._walk] at hwalkq; exact hwalkq)
                      have hres2 : F2._resolve q = .ok prq := by
                        rw [resolve_congr fs F2 hcwdX q, hresq]
                      by_cases hcase1 : wq.parent = some parent ∧
                          fs.cmp wq.basename w.basename = Ordering.eq
                      · exfalso
                        obtain ⟨hqp, hqb⟩ := hcase1
                        have hql : wq.links = fs.linksView parent := by
                          rcases hinvq.1 with ⟨h1, _⟩ | ⟨v, hv1, _, hv3⟩
                          · rw [hqp] at h1; cases h1
                          · rw [hqp] at hv1
                            injection hv1 with hv1
                            subst hv1
                            exact hv3
                        have hq2 := hinvq.2
                        rw [hnq, hql, smapGet_congr hclawX hqb, hn0X] at hq2
                        cases hq2
                      · rw [if_neg hcase1] at hnd2q
                        by_cases hcase2 : wq.node = some parent
                        · have hqnp : nq = parent := by
                            rw [hnq] at hcase2
                            exact Option.some.inj hcase2
                          rw [if_pos hcase2] at hnd2q
                          have hdir2 : ¬ (isDirectory (some p1n) = true) := by
                            have hpe : isDirectory (some p1n) =
                                isDirectory (some parent) := rfl
                            rw [hpe, ← hqnp]
                            exact hdirq
                          have hfile2 : isFile (some p1n) = true := by
                            have hpe : isFile (some p1n) =
                                isFile (some parent) := rfl
                            rw [hpe, ← hqnp]
                            exact hfileq
                          rw [readContents_val F2 q prq w2q p1n hres2
                            (by rw [FileSystem._walk]; exact hw2q) hnd2q hdir2
                            hfile2]
                          rw [getBuffer_fields_congr F2 parent p1n rfl rfl rfl
                            rfl]
                          rw [getBuffer_congr_slot fs F2 parent hshF2
                            (fun bb hbb => by rw [hbufsX]), hqnp]
                        · rw [if_neg hcase2, hnq] at hnd2q
                          rw [readContents_val F2 q prq w2q nq hres2
                            (by rw [FileSystem._walk]; exact hw2q) hnd2q hdirq
                            hfileq]
                          rw [getBuffer_congr_slot fs F2 nq hshF2
                            (fun bb hbb => by rw [hbufsX])]

-- ----------------------------------------------------------------------
-- The shadowed parent is never touched by a mutation on the child.
-- ----------------------------------------------------------------------

/-- Claim C3: the path walker detects symlink loops at depth 40 — the
two-symlink cycle `/x -> /y -> /x` fails with `ELOOP`, a linear chain of 39
symlinks ending at an existing file resolves successfully, and a chain
requiring 40 splices fails with `ELOOP`. -/
theorem c3_loop_detection_depth_40 :
    cycleFS.statSync "/x" = .error (.posix .ELOOP) ∧
    ((chainFS 39).statSync "/c39").map (fun s => s.isFile) = .ok true ∧
    ((chainFS 40).statSync "/c40").map (fun s => s.isFile) =
      .error (.posix .ELOOP) :=
  ⟨by decide, by decide, by decide⟩

/-- Claim C1, counterexample: on a read-only file system `chdir` (like
`pushd`/`popd`) fails with `EPERM`, not `EROFS` as the claim requires. -/
theorem c1_counterexample_chdir_eperm :
    roFS.chdir "/" = .error (.posix .EPERM) ∧
    Err.posix .EPERM ≠ Err.posix .EROFS :=
  ⟨by decide, by decide⟩

/-- Claim C1 (amended): on a read-only file system every mutating operation
fails before touching any state — `mkdirSync`, `rmdirSync`, `linkSync`,
`unlinkSync`, `renameSync`, `symlinkSync`, `writeFileSync` and `mountSync`
with `EROFS`; `chdir`, `pushd`, `popd` and clock mutation via `time(v)` with
`EPERM`.  No observable state change is possible: the guard is the first
statement of each operation and an error result carries no new state. -/
theorem c1_readonly_guard (fs : FileSystem) (h : fs.isReadonly = true) :
    (∀ p, fs.mkdirSync p = .error (.posix .EROFS)) ∧
    (∀ p, fs.rmdirSync p = .error (.posix .EROFS)) ∧
    (∀ a b, fs.linkSync a b = .error (.posix .EROFS)) ∧
    (∀ p, fs.unlinkSync p = .error (.posix .EROFS)) ∧
    (∀ a b, fs.renameSync a b = .error (.posix .EROFS)) ∧
    (∀ t l, fs.symlinkSync t l = .error (.posix .EROFS)) ∧
    (∀ p d, fs.writeFileSync p d = .error (.posix .EROFS)) ∧
    (∀ s t r, fs.mountSync s t r = .error (.posix .EROFS)) ∧
    (∀ p, fs.chdir p = .error (.posix .EPERM)) ∧
    (∀ p, fs.pushd p = .error (.posix .EPERM)) ∧
    (fs.popd = .error (.posix .EPERM)) ∧
    (∀ v, fs.time (some v) = .error (.posix .EPERM)) := by
  refine ⟨fun p => ?_, fun p => ?_, fun a b => ?_, fun p => ?_, fun a b => ?_,
    fun t l => ?_, fun p d => ?_, fun s t r => ?_, fun p => ?_, fun p => ?_,
    ?_, fun v => ?_⟩
  · simp [FileSystem.mkdirSync, h]
  · simp [FileSystem.rmdirSync, h]
  · simp [FileSystem.linkSync, h]
  · simp [FileSystem.unlinkSync, h]
  · simp [FileSystem.renameSync, h]
  · simp [FileSystem.symlinkSync, h]
  · simp [FileSystem.writeFileSync, h]
  · simp [FileSystem.mountSync, h]
  · simp [FileSystem.chdir, h]
  · simp [FileSystem.pushd, h]
  · simp [FileSystem.popd, h]
  · simp [FileSystem.time, h]

/-- Witness for the amended claim C1 at a concrete frozen file system. -/
theorem c1_readonly_guard_witness :
    roFS.mkdirSync "/a" = .error (.posix .EROFS) ∧
    roFS.renameSync "/a" "/b" = .error (.posix .EROFS) ∧
    roFS.chdir "/" = .error (.posix .EPERM) ∧
    roFS.time (some 5) = .error (.posix .EPERM) := by
  obtain ⟨h1, h2, h3, h4, h5, h6, h7, h8, h9, h10, h11, h12⟩ :=
    c1_readonly_guard roFS (by decide)
  exact ⟨h1 "/a", h5 "/a" "/b", h9 "/", h12 5⟩

/-- Claim C9: when the parent of a path resolves to an existing directory but
the final component has no entry in it, `rmdirSync` fails with `ENOTDIR`
(the absent node fails the `isDirectory` test), not `ENOENT`. -/
theorem c9_rmdir_missing_enotdir (fs : FileSystem) (path p : String)
    (w : WalkResult) (q : Inode)
    (hro : fs.isReadonly = false)
    (hres : fs._resolve path = .ok p)
    (hwalk : fs._walk p true = .ok w)
    (hparent : w.parent = some q)
    (hnode : w.node = none) :
    fs.rmdirSync path = .error (.posix .ENOTDIR) := by
  simp [FileSystem.rmdirSync, hro, hres, hwalk, hparent, hnode, isDirectory,
    ok_bind]

/-- Witness for claim C9 on a concrete file system. -/
theorem c9_rmdir_missing_enotdir_witness :
    freshFS.rmdirSync "/missing" = .error (.posix .ENOTDIR) :=
  c9_rmdir_missing_enotdir freshFS "/missing" "/missing" missWalk
    ((missWalk.parent).getD defaultInode)
    (by decide) (by decide) (by decide) (by decide) (by decide)

/-- Claim C10: `realpathSync` does not require the final path component to
exist — when the walk resolves all ancestors but finds no entry for the final
component, it returns the normalized resolved path instead of throwing
`ENOENT`. -/
theorem c10_realpath_missing_ok (fs : FileSystem) (path p : String)
    (w : WalkResult)
    (hres : fs._resolve path = .ok p)
    (hwalk : fs._walk p false = .ok w)
    (_hnode : w.node = none) :
    fs.realpathSync path = .ok w.realpath := by
  simp [FileSystem.realpathSync, hres, hwalk, ok_bind]

/-- Witness for claim C10 on a concrete file system. -/
theorem c10_realpath_missing_ok_witness :
    freshFS.realpathSync "/missing" = .ok "/missing" := by
  have h := c10_realpath_missing_ok freshFS "/missing" "/missing" missWalkF
    (by decide) (by decide) (by decide)
  rw [h]
  decide

/-- Claim C8: `realpathSync` is idempotent — whenever `realpathSync(p)`
completes without error, applying `realpathSync` to its result returns the
same path again. -/
theorem c8_realpath_idempotent (fs : FileSystem) (p r : String)
    (h : fs.realpathSync p = .ok r) :
    fs.realpathSync r = .ok r := by
  rw [FileSystem.realpathSync] at h ⊢
  cases hres : fs._resolve p with
  | error e =>
      rw [hres, error_bind] at h
      cases h
  | ok P =>
      rw [hres, ok_bind] at h
      cases hwalk : fs._walk P false with
      | error e =>
          rw [hwalk, error_bind] at h
          cases h
      | ok w =>
          rw [hwalk, ok_bind] at h
          injection h with hr
          rw [FileSystem._walk] at hwalk
          rw [FileSystem._resolve] at hres
          by_cases hcwd : fs.core.cwd ≠ ""
          · rw [if_pos hcwd] at hres
            have hres' : vpath.resolve fs.core.cwd p = P := by
              rw [show vpath.validate p .RelativeOrAbsolute = .ok p from rfl,
                ok_bind] at hres
              injection hres
            obtain ⟨ns, hfmt, hcl, hdf⟩ := resolve_shape fs.core.cwd p
            have hPg : GoodComps (vpath.parse P) := by
              rw [← hres', hfmt, parse_format ns hcl]
              exact ⟨ns, rfl, hcl⟩
            have hPdf : DotFree (vpath.parse P) := by
              rw [← hres', hfmt, parse_format ns hcl]
              intro x hx
              rcases List.mem_cons.mp hx with hx | hx
              · subst hx
                exact ⟨by decide, by decide⟩
              · exact hdf x hx
            have hre := retrace fs 40 (vpath.parse P) w hPg hwalk
            obtain ⟨ns2, hshape, hcl2, hdf2⟩ := hre.2
            have hrr : fs._resolve r = .ok r := by
              rw [FileSystem._resolve, if_pos hcwd,
                show vpath.validate r .RelativeOrAbsolute = .ok r from rfl,
                ok_bind]
              have hfix : vpath.resolve fs.core.cwd r = r := by
                rw [← hr, hshape]
                exact resolve_format_good fs.core.cwd ns2 hcl2 (hdf2 hPdf)
              rw [hfix]
            rw [hrr, ok_bind]
            have hw2 : fs._walk r false = .ok w := by
              rw [FileSystem._walk, ← hr]
              exact hre.1
            rw [hw2, ok_bind, hr]
          · rw [if_neg hcwd] at hres
            have habs : vpath.isAbsolute p = true ∧ P = p := by
              rw [vpath.validate] at hres
              by_cases hA : vpath.isAbsolute p = true
              · rw [if_pos hA] at hres
                refine ⟨hA, ?_⟩
                injection hres with h1
                exact h1.symm
              · rw [if_neg hA] at hres
                cases hres
            have hPg : GoodComps (vpath.parse P) := by
              rw [habs.2, vpath.parse, if_pos habs.1]
              exact ⟨vpath.nameList p, rfl, fun n hn => mem_nameList_clean hn⟩
            have hre := retrace fs 40 (vpath.parse P) w hPg hwalk
            obtain ⟨ns2, hshape, hcl2, _⟩ := hre.2
            have hrr : fs._resolve r = .ok r := by
              rw [FileSystem._resolve, if_neg hcwd, vpath.validate, ← hr, hshape,
                if_pos (isAbsolute_format ns2)]
            rw [hrr, ok_bind]
            have hw2 : fs._walk r false = .ok w := by
              rw [FileSystem._walk, ← hr]
              exact hre.1
            rw [hw2, ok_bind, hr]

/-- Witness for claim C8 at a concrete resolved path. -/
theorem c8_realpath_idempotent_witness :
    hiFS.realpathSync "/a/b.txt" = .ok "/a/b.txt" :=
  c8_realpath_idempotent hiFS "/a/b.txt" "/a/b.txt" (by decide)

/-- Claim C6 at its failing input: after `renameSync("/a/b.txt", "/a/b.txt")`
(which succeeds) the directory entry is still present, but the inode's
`nlink` is `0` — the detach of the existing target decrements `nlink` and the
same-parent key replace never re-increments it — so `nlink` (0) differs from
the number of name-map entries referring to the inode (1). -/
theorem c6_rename_self_link_count_bug :
    (hiFS.renameSync "/a/b.txt" "/a/b.txt").map (fun _ => 0) = .ok 0 ∧
    renameSelfFS.readdirSync "/a" = .ok ["b.txt"] ∧
    (renameSelfFS.lstatSync "/a/b.txt").map (fun s => s.nlink) = .ok 0 :=
  ⟨by decide, by decide, by decide⟩

/-- Claim C7, counterexample: `/a` is a directory whose parent `/` exists,
yet `writeFileSync("/a", b)` fails `EISDIR` and a following `readFileSync`
returns `EISDIR` as well, not a buffer byte-equal to `b`. -/
theorem c7_counterexample_write_directory :
    ((allocBuffer hiFS [1]).2._walk "/a" false).map (fun w => w.parent.isSome) =
      .ok true ∧
    (allocBuffer hiFS [1]).2.writeFileSync "/a" (allocBuffer hiFS [1]).1 =
      .error (.posix .EISDIR) ∧
    (allocBuffer hiFS [1]).2.readContents "/a" = .error (.posix .EISDIR) :=
  ⟨by decide, by decide, by decide⟩

/-- Claim C7 (amended): the unconditional round-trip fails on directory
targets (see the counterexample), but whenever `writeFileSync(p, b)` succeeds
on a well-formed file system, `readFileSync(p)` on the resulting file system
returns exactly the bytes the caller's buffer held at the call, and
`statSync(p).size` is their count. -/
theorem c7_write_read_roundtrip (fs fs' : FileSystem) (p : String) (b : Buffer)
    (hwf : fs.Wf = true) (hw : fs.writeFileSync p b = .ok fs') :
    fs'.readContents p = .ok (bufsGet fs b.id) ∧
    (fs'.statSync p).map Stats.size = .ok (bufsGet fs b.id).length := by
  obtain ⟨pr, w2, nF, hres, hwalk, hnd, hdir, hfile, hbuf, hbufs, _hic,
    _hframe⟩ := writeFileSync_read_back fs fs' p b hwf hw
  have hndirT : ¬ (isDirectory (some nF) = true) := by
    rw [hdir]
    exact Bool.false_ne_true
  have hgb : fs'._getBuffer nF = bufsGet fs b.id := by
    rw [getBuffer_bufId fs' nF b.id hbuf, hbufs, bufsGet]
  constructor
  · rw [readContents_val fs' p pr w2 nF hres hwalk hnd hndirT hfile, hgb]
  · rw [FileSystem.statSync, hres, ok_bind, hwalk, ok_bind]
    rw [FileSystem._stat, hnd]
    dsimp only
    rw [ok_map]
    dsimp only
    rw [if_pos hfile, getSize_bufId fs' nF b.id hbuf, hbufs, bufsGet]

/-- Witness for the amended claim C7 at a concrete write of three bytes. -/
theorem c7_write_read_roundtrip_witness :
    c7FS.readContents "/a/c.txt" = .ok (bufsGet c7Buf.2 c7Buf.1.id) ∧
    (c7FS.statSync "/a/c.txt").map Stats.size =
      .ok (bufsGet c7Buf.2 c7Buf.1.id).length :=
  c7_write_read_roundtrip c7Buf.2 c7FS "/a/c.txt" c7Buf.1 (by decide) (by decide)

/-- Claim C2, refuted: `Buffer.prototype.slice` returns a memory-sharing
view, not a copy, so the buffer `readFileSync` returns aliases the file's
stored bytes, and the buffer `writeFileSync(p, b)` stores aliases the
caller's.  Concretely on `/a/b.txt` (contents `"hi"` = `[104, 105]`):
mutating the buffer returned by `readFileSync` in place overwrites the
stored file, and after writing `"bye"` = `[98, 121, 101]` mutating the
caller's buffer in place changes what a later read returns — the claimed
copy discipline does not hold. -/
theorem c2_slice_view_aliasing :
    hiFS.readContents "/a/b.txt" = .ok [104, 105] ∧
    (setBuf c2Read.2 c2Read.1 [0]).readContents "/a/b.txt" = .ok [0] ∧
    c2FS.readContents "/a/b.txt" = .ok [98, 121, 101] ∧
    (setBuf c2FS c2Buf.1 [9]).readContents "/a/b.txt" = .ok [9] :=
  ⟨by decide, by decide, by decide, by decide⟩

end vfs
